import Mathlib

/-! Onboard flight-control software: radio decoder, PID controller, control loop.

A shallow embedding of `src/ioss/rc_input.cpp` (the radio frame decoder
`readRCChannel`) and of `src/test_code/test5.cpp` (the PID controller, the
stick/throttle mappings, one cycle of `controlLoop`, the producer step of
`imuThread` and the `PCA9685` driver), followed by the properties
established about them.

Conventions of the embedding:
* `uint8_t` is `Fin 256` and `uint16_t` is `Fin 65536`; `int` is `Int`.
* an out-of-bounds index is the failure value `none`, so that "the function
  returns" is a theorem and not an assumption;
* `float`/`double` arithmetic is exact arithmetic in an ordered field
  (`ℚ` where a value has to be truncated to an `int`).
-/

namespace RCInput

/-- One `uint8_t`. -/
abbrev Byte := Fin 256

/-- One `uint16_t`. -/
abbrev Word := Fin 65536

/-- Frame length, `#define SBUS_FRAME_SIZE 35`. -/
def SBUS_FRAME_SIZE : Nat := 35

/-- Start marker, `#define START_BYTE 0x0F`. -/
def START_BYTE : Nat := 0x0F

/-- The file-scope state of `rc_input.cpp`: `static uint16_t channels[16]`
and `static std::deque<uint8_t> data_buffer`. -/
structure Decoder where
  channels : Fin 16 → Word
  data_buffer : List Byte

/-- What one call of `readRCChannel` leaves behind: the returned `int`, the
bytes still waiting in the serial port, and the decoder state. -/
structure ReadResult where
  value : Int
  serial : List Byte
  state : Decoder

/-- The drain loop (lines 68-75): `read` hands over the waiting bytes one at
a time; each is pushed at the back and, when the deque then holds more than
`SBUS_FRAME_SIZE * 10` bytes, the front byte is popped. -/
def drain (data_buffer : List Byte) : List Byte → List Byte
  | [] => data_buffer
  | byte :: waiting =>
    let pushed := data_buffer ++ [byte]
    drain (if pushed.length > SBUS_FRAME_SIZE * 10 then pushed.tail else pushed) waiting

/-- The checksum loop (lines 89-92): `xor_checksum ^= frame[i]` for
`i = 1 .. SBUS_FRAME_SIZE - 2`, accumulated in a `uint8_t`. -/
def xorChecksum (frame : List Byte) : Option Nat :=
  (List.range' 1 (SBUS_FRAME_SIZE - 2)).foldlM
    (fun acc i => (frame[i]?).map (fun b => (acc ^^^ b.val) % 256)) 0

/-- The value stored by line 101: `(hi << 8) | lo` converted to `uint16_t`. -/
def joinBytes (hi lo : Byte) : Word :=
  ⟨(hi.val <<< 8 ||| lo.val) % 65536, Nat.mod_lt _ (by decide)⟩

/-- The channel loop (lines 100-102):
`channels[i] = (frame[1 + i * 2] << 8) | frame[2 + i * 2]` for `i = 0 .. 15`. -/
def updateChannels (frame : List Byte) (channels : Fin 16 → Word) : Option (Fin 16 → Word) :=
  (List.finRange 16).foldlM
    (fun ch i =>
      match frame[1 + i.val * 2]?, frame[2 + i.val * 2]? with
      | some hi, some lo => some (Function.update ch i (joinBytes hi lo))
      | _, _ => none)
    channels

/-- The scan loop (lines 78-107) on the buffer: while at least
`SBUS_FRAME_SIZE` bytes are buffered, copy the first `SBUS_FRAME_SIZE` bytes
into `frame`; a wrong start byte or a wrong checksum pops one byte and
continues; otherwise the channels are rewritten, the frame is erased from
the buffer and the loop is left. Returns the channels and the buffer. -/
def scan : List Byte → (Fin 16 → Word) → Option ((Fin 16 → Word) × List Byte)
  | [], channels => some (channels, [])
  | b :: rest, channels =>
    if (b :: rest).length ≥ SBUS_FRAME_SIZE then
      let frame := (b :: rest).take SBUS_FRAME_SIZE
      match frame[0]? with
      | none => none
      | some first =>
        if first.val ≠ START_BYTE then scan rest channels
        else
          match xorChecksum frame, frame[SBUS_FRAME_SIZE - 1]? with
          | some xor_checksum, some last =>
            if xor_checksum ≠ last.val then scan rest channels
            else
              match updateChannels frame channels with
              | some channels' => some (channels', (b :: rest).drop SBUS_FRAME_SIZE)
              | none => none
          | _, _ => none
    else some (channels, b :: rest)

/-- The final read `channels[channel - 1]` (line 110), with the index checked. -/
def channelAt (channels : Fin 16 → Word) (idx : Int) : Option Int :=
  if h : 0 ≤ idx ∧ idx < 16 then
    some ((channels ⟨idx.toNat, by omega⟩).val : Int)
  else none

/-- Function `int readRCChannel(int channel)` (lines 60-111). `serial` is the
sequence of bytes that `read(serial_port, ...)` can deliver during the call. -/
def readRCChannel (channel : Int) (serial : List Byte) (st : Decoder) : Option ReadResult :=
  if channel < 1 ∨ channel > 16 then
    some ⟨-1, serial, st⟩
  else
    match scan (drain st.data_buffer serial) st.channels with
    | none => none
    | some (channels, data_buffer) =>
      match channelAt channels (channel - 1) with
      | none => none
      | some value => some ⟨value, [], ⟨channels, data_buffer⟩⟩

/-! ### Vocabulary of the statements about the decoder -/

/-- XOR of the bytes at positions 1..33 of a window, as a natural number. -/
def payloadXor (w : List Byte) : Nat :=
  ((w.drop 1).take 33).foldl (fun acc b => acc ^^^ b.val) 0

/-- A window of bytes is a frame that line 83 and line 94 both let through:
35 bytes, the first one `0x0F`, the last one the XOR of bytes 1..33. -/
def ValidFrame (w : List Byte) : Prop :=
  w.length = 35 ∧ w[0]? = some 0x0F ∧ (w[34]?).map Fin.val = some (payloadXor w)

instance : DecidablePred ValidFrame := fun w => by
  unfold ValidFrame; infer_instance

/-- The byte pair of channel index `i` (0-based) of a window, read as a
16-bit big-endian number: `256 * w[1 + 2i] + w[2 + 2i]`. -/
def pairValue (w : List Byte) (i : Fin 16) : Nat :=
  256 * (w.getD (1 + 2 * i.val) 0).val + (w.getD (2 + 2 * i.val) 0).val

/-- The sixteen channel values that the channel loop stores for a window. -/
def frameChannels (w : List Byte) : Fin 16 → Word :=
  fun i => joinBytes (w.getD (1 + i.val * 2) 0) (w.getD (2 + i.val * 2) 0)

/-- The layout described by the frame description of the specification: the
22 bytes after the start byte read as one big-endian string of 176 bits, cut
into sixteen 11-bit fields; `packed11 w i` is field `i` (1-based). -/
def packed11 (w : List Byte) (i : Nat) : Nat :=
  (((w.drop 1).take 22).foldl (fun acc b => acc * 256 + b.val) 0 / 2 ^ (11 * (16 - i))) % 2 ^ 11

/-- The window of 35 bytes that starts at offset `k` of a buffer. -/
def window (B : List Byte) (k : Nat) : List Byte := (B.drop k).take 35

/-! ### Sample data for the concrete instances below -/

/-- A valid frame whose bytes 1 and 2 are `0x00 0x20`: its first 11-bit
big-endian field is 1, its first 16-bit pair is 32. -/
def frameA : List Byte := [0x0F, 0x00, 0x20] ++ List.replicate 31 0 ++ [0x20]

/-- A valid frame with an all-zero channel area and byte 33 equal to `0x0F`. -/
def frameB : List Byte := [0x0F] ++ List.replicate 32 0 ++ [0x0F, 0x0F]

/-- The channel array with every entry 0. -/
def zeroChannels : Fin 16 → Word := fun _ => 0

/-- A buffer filled to its cap of 350 bytes. -/
def fullBuffer : List Byte := List.replicate 350 0x0F

end RCInput

namespace FlightControl

/-! ### `src/test_code/test5.cpp`: constants -/

/-- Source constant `const int RC_MIN = 172`. -/
def RC_MIN : Int := 172
/-- Source constant `const int RC_MAX = 1811`. -/
def RC_MAX : Int := 1811
/-- Source constant `const int RC_MID = 991`. -/
def RC_MID : Int := 991
/-- Source constant `const int PWM_MIN = 210`. -/
def PWM_MIN : Int := 210
/-- Source constant `const int PWM_MAX = 405`. -/
def PWM_MAX : Int := 405
/-- Source constant `const int MAX_ADJUSTMENT = 10`. -/
def MAX_ADJUSTMENT : Int := 10
/-- Source constant `const float TOLERANCE_ROLL = 1`. -/
def TOLERANCE_ROLL : ℚ := 1
/-- Source constant `const float TOLERANCE_PITCH = 1`. -/
def TOLERANCE_PITCH : ℚ := 1

/-! ### The PID controller -/

/-- The record `struct PIDController` (lines 166-175), over an ordered field `K`. -/
structure PIDController (K : Type) where
  kp : K
  ki : K
  kd : K
  prev_error : K
  integral : K
  integral_limit : K
  output_limit : K
  feedforward : K
  filtered_derivative : K
  alpha : K

/-- Library function `std::clamp(v, lo, hi)`: `(v < lo) ? lo : (hi < v) ? hi : v`. -/
def stdClamp {K : Type} [LinearOrder K] (v lo hi : K) : K :=
  if v < lo then lo else if hi < v then hi else v

namespace PIDController

variable {K : Type} [LinearOrderedField K]

/-- The constructor (lines 177-179); in the source `ff`, `i_limit`,
`out_limit` and `filter_alpha` default to `0`, `10`, `10` and `0.1`. -/
def init (p i d ff i_limit out_limit filter_alpha : K) : PIDController K where
  kp := p
  ki := i
  kd := d
  prev_error := 0
  integral := 0
  integral_limit := i_limit
  output_limit := out_limit
  feedforward := ff
  filtered_derivative := 0
  alpha := filter_alpha

/-- Method `float calculate(float setpoint, float measurement, float dt)`
(lines 187-219): the returned value and the controller afterwards. -/
def calculate (pid : PIDController K) (setpoint measurement dt : K) : K × PIDController K :=
  if dt ≤ 0 then
    (0, pid)
  else
    let error := setpoint - measurement
    let pTerm := pid.kp * error
    let integral := stdClamp (pid.integral + error * dt) (-pid.integral_limit) pid.integral_limit
    let iTerm := pid.ki * integral
    let derivative := (error - pid.prev_error) / dt
    let filtered_derivative := pid.alpha * derivative + (1 - pid.alpha) * pid.filtered_derivative
    let dTerm := pid.kd * filtered_derivative
    let output := pid.feedforward * setpoint + pTerm + iTerm + dTerm
    (stdClamp output (-pid.output_limit) pid.output_limit,
      { pid with
        prev_error := error
        integral := integral
        filtered_derivative := filtered_derivative })

/-- A finite sequence of `calculate` calls, each given as
`(setpoint, measurement, dt)`; the controller after the last one. -/
def run (pid : PIDController K) : List (K × K × K) → PIDController K
  | [] => pid
  | (setpoint, measurement, dt) :: calls => run (pid.calculate setpoint measurement dt).2 calls

end PIDController

/-! ### Stick mappings and one cycle of the control loop -/

/-- Conversion `static_cast<int>` of a floating value: truncation towards zero. -/
def toInt (x : ℚ) : Int := if 0 ≤ x then ⌊x⌋ else ⌈x⌉

/-- Function `double mapThrottle(int value)` (lines 223-227). -/
def mapThrottle (value : Int) : ℚ :=
  if value ≤ RC_MIN then 0
  else if value ≥ RC_MAX then 1
  else ((value - RC_MIN : Int) : ℚ) / ((RC_MAX - RC_MIN : Int) : ℚ)

/-- Function `double mapControlInput(int value)` (lines 229-236). -/
def mapControlInput (value : Int) : ℚ :=
  if value < RC_MIN ∨ value > RC_MAX then 0
  else if value < RC_MID then ((value - RC_MID : Int) : ℚ) / ((RC_MID - RC_MIN : Int) : ℚ)
  else if value > RC_MID then ((value - RC_MID : Int) : ℚ) / ((RC_MAX - RC_MID : Int) : ℚ)
  else 0

/-- Function `int computeThrottlePWM(double throttle_normalized)` (lines 238-240). -/
def computeThrottlePWM (throttle_normalized : ℚ) : Int :=
  toInt ((PWM_MIN : ℚ) + throttle_normalized * ((PWM_MAX - PWM_MIN : Int) : ℚ))

/-- Function `int computeAdjustment(double control_normalized)` (lines 242-244). -/
def computeAdjustment (control_normalized : ℚ) : Int :=
  toInt (control_normalized * (MAX_ADJUSTMENT : ℚ))

/-- Function `int clamp(int value, int min_value, int max_value)` (lines 246-248). -/
def clamp (value min_value max_value : Int) : Int :=
  if value < min_value then min_value else (if value > max_value then max_value else value)

/-- Modelled from the spec: the record `IMUData` is declared in
`imu_sensor.h`, which is not among the sources; the InertialSample of the
specification carries "roll angle, pitch angle, corrected yaw-rate", the
three fields that `test5.cpp` reads or writes. -/
structure IMUData where
  roll_angle : ℚ
  pitch_angle : ℚ
  gyroZ : ℚ

/-- One call `pca9685.setMotorSpeed(channel, pwm_value)` issued by the loop. -/
structure MotorCall where
  channel : Int
  pwm_value : Int
deriving DecidableEq, Repr

/-- What one cycle of `controlLoop` leaves behind: the two controllers it may
have advanced and the `setMotorSpeed` calls it issued, in order. -/
structure CycleResult where
  rollPID : PIDController ℚ
  pitchPID : PIDController ℚ
  calls : List MotorCall

/-- Local `float roll_com = 0` (line 293), never assigned afterwards. -/
def roll_com : ℚ := 0
/-- Local `float pitch_com = 0` (line 294), never assigned afterwards. -/
def pitch_com : ℚ := 0

/-- One iteration of the `while (true)` of `controlLoop` (lines 297-360).
`dt` is the elapsed time, `localIMUData` the copied inertial sample, and
`throttle_value`, `aileron_value`, `elevator_value`, `rudder_value` are what
`readRCChannel(3)`, `(1)`, `(2)`, `(4)` returned. -/
def controlLoopCycle (rollPID pitchPID : PIDController ℚ) (dt : ℚ) (localIMUData : IMUData)
    (throttle_value aileron_value elevator_value rudder_value : Int) : CycleResult :=
  let throttle_normalized := mapThrottle throttle_value
  let aileron_normalized := mapControlInput aileron_value
  let elevator_normalized := mapControlInput elevator_value
  let _rudder_normalized := mapControlInput rudder_value
  let rollStep :=
    if |roll_com - localIMUData.roll_angle| > TOLERANCE_ROLL then
      let r := rollPID.calculate roll_com localIMUData.roll_angle dt
      (toInt r.1, r.2)
    else (0, rollPID)
  let roll_adj : Int := rollStep.1
  let pitchStep :=
    if |pitch_com - localIMUData.pitch_angle| > TOLERANCE_PITCH then
      let r := pitchPID.calculate pitch_com localIMUData.pitch_angle dt
      (toInt r.1, r.2)
    else (0, pitchPID)
  let pitch_adj : Int := pitchStep.1
  let yaw_adj : Int := 0
  let throttle_PWM := computeThrottlePWM throttle_normalized
  if throttle_PWM ≤ PWM_MIN then
    ⟨rollStep.2, pitchStep.2,
      [⟨0, PWM_MIN⟩, ⟨1, PWM_MIN⟩, ⟨2, PWM_MIN⟩, ⟨3, PWM_MIN⟩]⟩
  else
    let aileron_adj_total := computeAdjustment aileron_normalized + roll_adj
    let elevator_adj_total := computeAdjustment elevator_normalized + pitch_adj
    let motor1_adj := -aileron_adj_total + elevator_adj_total + yaw_adj
    let motor2_adj := aileron_adj_total - elevator_adj_total - yaw_adj
    let motor3_adj := aileron_adj_total + elevator_adj_total + yaw_adj
    let motor4_adj := -aileron_adj_total - elevator_adj_total - yaw_adj
    let motor1_PWM := clamp (throttle_PWM + motor1_adj) PWM_MIN PWM_MAX
    let motor2_PWM := clamp (throttle_PWM + motor2_adj) PWM_MIN PWM_MAX
    let motor3_PWM := clamp (throttle_PWM + motor3_adj) PWM_MIN PWM_MAX
    let motor4_PWM := clamp (throttle_PWM + motor4_adj) PWM_MIN PWM_MAX
    ⟨rollStep.2, pitchStep.2,
      [⟨0, motor1_PWM⟩, ⟨1, motor2_PWM⟩, ⟨2, motor3_PWM⟩, ⟨3, motor4_PWM⟩]⟩

/-- The controller `PIDController rollPID(1.5f, 0.0f, 1.0f)` of line 289. -/
def rollPID0 : PIDController ℚ := PIDController.init (3/2) 0 1 0 10 10 (1/10)

/-- The controller `PIDController pitchPID(2.0f, 0.5f, 0.2f)` of line 290. -/
def pitchPID0 : PIDController ℚ := PIDController.init 2 (1/2) (1/5) 0 10 10 (1/10)

/-- Lines 340-359 with the yaw adjustment as a parameter: the four
`setMotorSpeed` calls that the mixing branch issues for a base pulse, the
two adjustment totals and a yaw adjustment. -/
def mixCalls (throttle_PWM aileron_adj_total elevator_adj_total yaw_adj : Int) :
    List MotorCall :=
  let motor1_adj := -aileron_adj_total + elevator_adj_total + yaw_adj
  let motor2_adj := aileron_adj_total - elevator_adj_total - yaw_adj
  let motor3_adj := aileron_adj_total + elevator_adj_total + yaw_adj
  let motor4_adj := -aileron_adj_total - elevator_adj_total - yaw_adj
  [⟨0, clamp (throttle_PWM + motor1_adj) PWM_MIN PWM_MAX⟩,
   ⟨1, clamp (throttle_PWM + motor2_adj) PWM_MIN PWM_MAX⟩,
   ⟨2, clamp (throttle_PWM + motor3_adj) PWM_MIN PWM_MAX⟩,
   ⟨3, clamp (throttle_PWM + motor4_adj) PWM_MIN PWM_MAX⟩]

/-! ### The inertial data pipeline -/

/-- The file-scope variables `IMUData imuData` (line 251) and
`std::queue<IMUData> imuDataQueue` (line 253) that the two threads share. -/
structure SharedIMU where
  imuData : IMUData
  imuDataQueue : List IMUData

/-- One iteration of the loop of `imuThread` (lines 270-280): `raw` is the
sample returned by `readIMU()`, whose `gyroZ` is corrected by `offsetGyroZ`
before the sample is pushed at the back of the queue. -/
def imuThreadStep (raw : IMUData) (offsetGyroZ : ℚ) (sh : SharedIMU) : SharedIMU :=
  let localIMUData : IMUData := { raw with gyroZ := raw.gyroZ - offsetGyroZ }
  { sh with imuDataQueue := sh.imuDataQueue ++ [localIMUData] }

/-- The copy at the head of a control cycle (lines 303-307):
`localIMUData = imuData`. -/
def copyIMUData (sh : SharedIMU) : IMUData := sh.imuData

/-! ### The actuator driver `PCA9685` -/

/-- Register address `#define LED0_ON_L 0x06`. -/
def LED0_ON_L : Int := 0x06
/-- Register address `#define LED0_OFF_L 0x08`. -/
def LED0_OFF_L : Int := 0x08
/-- Source constant `const int I2C_RETRY_LIMIT = 3`. -/
def I2C_RETRY_LIMIT : Nat := 3
/-- Source constant `const int SAFE_PWM = PWM_MIN`. -/
def SAFE_PWM : Int := PWM_MIN

/-- Conversion of an `int` to `uint8_t`: the value modulo 256. -/
def toUInt8 (x : Int) : Fin 256 :=
  ⟨(x % 256).toNat, by omega⟩

/-- What reached the device, in order: a 2-byte register write that went
through, or the closing of the handle. -/
inductive BusEvent where
  | regWrite (reg value : Fin 256)
  | close (fd : Int)
deriving DecidableEq, Repr

/-- The environment of the driver, the I2C device behind `fd`:
`outcome k` tells whether the `k`-th call of `write(fd, buffer, 2)` returns 2,
`attempts` counts the calls made so far, `regs` are the registers of the
device (a 2-byte write `{reg, value}` that goes through stores `value` in
register `reg`), and `events` lists what reached the device. -/
structure Bus where
  outcome : Nat → Bool
  attempts : Nat
  regs : Fin 256 → Fin 256
  events : List BusEvent

/-- The bus after a call of `write(fd, {reg, value}, 2)` that went through. -/
def Bus.deliver (bus : Bus) (reg value : Fin 256) : Bus :=
  { bus with
    attempts := bus.attempts + 1
    regs := Function.update bus.regs reg value
    events := bus.events ++ [BusEvent.regWrite reg value] }

/-- The bus after a call of `write` that did not return 2. -/
def Bus.fail (bus : Bus) : Bus :=
  { bus with attempts := bus.attempts + 1 }

/-- How a `void` method of the driver ends: it returns, or the process is
terminated by `exit(status)`. -/
inductive Outcome where
  | returned (bus : Bus)
  | exited (status : Int) (bus : Bus)

/-- Sequencing of two statements: the second runs only if the first returned. -/
def Outcome.andThen (o : Outcome) (next : Bus → Outcome) : Outcome :=
  match o with
  | .returned bus => next bus
  | .exited status bus => .exited status bus

/-- The bus at the end of a method, however it ended. -/
def Outcome.bus : Outcome → Bus
  | .returned bus => bus
  | .exited _ bus => bus

/-- The retry loop of `writeRegister` (lines 125-132), entered with the
current value of `retries`: a `write` that returns 2 leaves the loop; a
failed one increments `retries`, exits the process with status 1 when
`retries >= I2C_RETRY_LIMIT`, and otherwise tries again. -/
def writeRegisterLoop (reg value : Fin 256) (retries : Nat) (bus : Bus) : Outcome :=
  if bus.outcome bus.attempts then
    .returned (bus.deliver reg value)
  else if retries + 1 ≥ I2C_RETRY_LIMIT then
    .exited 1 bus.fail
  else
    writeRegisterLoop reg value (retries + 1) bus.fail
termination_by I2C_RETRY_LIMIT - retries
decreasing_by
  simp only [I2C_RETRY_LIMIT] at *
  omega

/-- Method `void writeRegister(uint8_t reg, uint8_t value)` (lines 123-133). -/
def writeRegister (reg value : Fin 256) (bus : Bus) : Outcome :=
  writeRegisterLoop reg value 0 bus

/-- Method `void setPWM(int channel, int on, int off)` (lines 75-80); the
arguments of each `writeRegister` call are converted to `uint8_t`. -/
def setPWM (channel on_val off_val : Int) (bus : Bus) : Outcome :=
  (((writeRegister (toUInt8 (LED0_ON_L + 4 * channel)) (toUInt8 (Int.land on_val 0xFF))
      bus).andThen
    (writeRegister (toUInt8 (LED0_ON_L + 4 * channel + 1))
      (toUInt8 (on_val >>> (8 : Nat))))).andThen
    (writeRegister (toUInt8 (LED0_OFF_L + 4 * channel))
      (toUInt8 (Int.land off_val 0xFF)))).andThen
    (writeRegister (toUInt8 (LED0_OFF_L + 4 * channel + 1))
      (toUInt8 (off_val >>> (8 : Nat))))

/-- Method `void setMotorSpeed(int channel, int pwm_value)` (lines 82-88). -/
def setMotorSpeed (channel pwm_value : Int) (bus : Bus) : Outcome :=
  if pwm_value < PWM_MIN ∨ pwm_value > PWM_MAX then
    .returned bus
  else
    setPWM channel 0 pwm_value bus

/-- One iteration of the loop of `setAllMotorsSpeeds` (lines 94-100) on the
local array `buffer`. -/
def fillChannel (pwm_values : Fin 4 → Int) (buffer : Fin 17 → Fin 256) (i : Fin 4) :
    Fin 17 → Fin 256 :=
  let pwm := stdClamp (pwm_values i) PWM_MIN PWM_MAX
  let b1 := Function.update buffer ⟨1 + i.val * 4, by have := i.isLt; omega⟩ 0
  let b2 := Function.update b1 ⟨2 + i.val * 4, by have := i.isLt; omega⟩ 0
  let b3 := Function.update b2 ⟨3 + i.val * 4, by have := i.isLt; omega⟩
    (toUInt8 (Int.land pwm 0xFF))
  Function.update b3 ⟨4 + i.val * 4, by have := i.isLt; omega⟩ (toUInt8 (pwm >>> (8 : Nat)))

/-- Method `void setAllMotorsSpeeds(const int pwm_values[4])` (lines 90-103).
`buffer` is the content of the uninitialised local array `uint8_t buffer[17]`.
The method `asyncWrite` that receives the array and `sizeof(buffer)` is not
among the sources and is a parameter. -/
def setAllMotorsSpeeds (asyncWrite : (Fin 17 → Fin 256) → Nat → Bus → Outcome)
    (pwm_values : Fin 4 → Int) (buffer : Fin 17 → Fin 256) (bus : Bus) : Outcome :=
  let buffer0 := Function.update buffer 0 (toUInt8 LED0_ON_L)
  asyncWrite ((List.finRange 4).foldl (fillChannel pwm_values) buffer0) 17 bus

/-- Method `void stopAllMotors()` (lines 158-163): `setMotorSpeed(i, SAFE_PWM)`
for `i = 0 .. 3`. -/
def stopAllMotors (bus : Bus) : Outcome :=
  (List.range 4).foldl (fun o i => o.andThen (setMotorSpeed (i : Int) SAFE_PWM))
    (Outcome.returned bus)

/-- The destructor `~PCA9685()` (lines 68-73) of a driver whose handle is
`fd`: `stopAllMotors()`, then `close(fd)` when `fd >= 0`. -/
def destroy (fd : Int) (bus : Bus) : Outcome :=
  (stopAllMotors bus).andThen fun bus1 =>
    if fd ≥ 0 then .returned { bus1 with events := bus1.events ++ [BusEvent.close fd] }
    else .returned bus1

/-! ### Sample data for the concrete instances of the driver -/

/-- A bus on which every `write` goes through, with all registers 0. -/
def busOk : Bus := ⟨fun _ => true, 0, fun _ => 0, []⟩

/-- A bus on which the first two calls of `write` fail and all later ones go
through. -/
def busFlaky : Bus := ⟨fun k => decide (2 ≤ k), 0, fun _ => 0, []⟩

/-- A bus on which every `write` fails. -/
def busDead : Bus := ⟨fun _ => false, 0, fun _ => 0, []⟩

end FlightControl

/-! ## Lemmas about the decoder -/

namespace RCInput

theorem foldlM_range_getElem {α β : Type} (l : List α) (f : β → α → β) :
    ∀ (n s : Nat) (a : β), s + n ≤ l.length →
      (List.range' s n).foldlM (fun acc i => (l[i]?).map (f acc)) a
        = some (((l.drop s).take n).foldl f a) := by
  intro n
  induction n with
  | zero => intro s a _; simp
  | succ n ih =>
    intro s a h
    have hs : s < l.length := by omega
    rw [List.range'_succ, List.foldlM_cons, List.getElem?_eq_getElem hs]
    simp only [Option.map_some', Option.bind_eq_bind, Option.some_bind]
    rw [ih (s + 1) (f a l[s]) (by omega), List.drop_eq_getElem_cons hs, List.take_succ_cons,
      List.foldl_cons]

theorem foldl_xor_lt (l : List Byte) :
    ∀ a : Nat, a < 256 → l.foldl (fun acc b => (acc ^^^ b.val) % 256) a
      = l.foldl (fun acc b => acc ^^^ b.val) a
      ∧ l.foldl (fun acc b => acc ^^^ b.val) a < 256 := by
  induction l with
  | nil => intro a h; exact ⟨rfl, h⟩
  | cons b t ih =>
    intro a h
    have hb : b.val < 2 ^ 8 := b.isLt
    have hx : a ^^^ b.val < 2 ^ 8 := Nat.xor_lt_two_pow (by simpa using h) hb
    have hx' : a ^^^ b.val < 256 := by simpa using hx
    simp only [List.foldl_cons, Nat.mod_eq_of_lt hx']
    exact ih _ hx'

theorem payloadXor_lt (w : List Byte) : payloadXor w < 256 :=
  (foldl_xor_lt _ 0 (by decide)).2

theorem xorChecksum_eq (w : List Byte) (h : w.length = 35) :
    xorChecksum w = some (payloadXor w) := by
  unfold xorChecksum payloadXor
  rw [foldlM_range_getElem w (fun acc b => (acc ^^^ b.val) % 256) (SBUS_FRAME_SIZE - 2) 1 0
    (by simp [SBUS_FRAME_SIZE, h])]
  simp only [SBUS_FRAME_SIZE]
  rw [(foldl_xor_lt _ 0 (by decide)).1]

theorem joinBytes_val (hi lo : Byte) : (joinBytes hi lo).val = 256 * hi.val + lo.val := by
  have hlo : lo.val < 2 ^ 8 := lo.isLt
  have hhi : hi.val < 256 := hi.isLt
  simp only [joinBytes, Nat.shiftLeft_eq]
  rw [Nat.mul_comm, ← Nat.mul_add_lt_is_or hlo]
  have : 2 ^ 8 * hi.val + lo.val < 65536 := by omega
  exact Nat.mod_eq_of_lt this


theorem updateChannels_fold (w : List Byte) (h : w.length = 35) :
    ∀ (l : List (Fin 16)) (ch : Fin 16 → Word),
      l.foldlM
        (fun ch i =>
          match w[1 + i.val * 2]?, w[2 + i.val * 2]? with
          | some hi, some lo => some (Function.update ch i (joinBytes hi lo))
          | _, _ => none)
        ch
      = some (fun i => if i ∈ l then frameChannels w i else ch i) := by
  intro l
  induction l with
  | nil => intro ch; simp
  | cons j t ih =>
    intro ch
    have h1 : 1 + j.val * 2 < w.length := by have := j.isLt; omega
    have h2 : 2 + j.val * 2 < w.length := by have := j.isLt; omega
    rw [List.foldlM_cons, List.getElem?_eq_getElem h1, List.getElem?_eq_getElem h2]
    simp only [Option.bind_eq_bind, Option.some_bind]
    rw [ih]
    congr 1
    funext i
    by_cases hit : i ∈ t
    · simp [hit]
    · by_cases hij : i = j
      · subst hij
        simp [hit, frameChannels, List.getD_eq_getElem?_getD, List.getElem?_eq_getElem h1,
          List.getElem?_eq_getElem h2]
      · simp [hit, hij, Function.update_noteq hij]

theorem updateChannels_eq (w : List Byte) (h : w.length = 35) (ch : Fin 16 → Word) :
    updateChannels w ch = some (frameChannels w) := by
  unfold updateChannels
  rw [updateChannels_fold w h]
  congr 1
  funext i
  simp [List.mem_finRange]

theorem frameChannels_val (w : List Byte) (i : Fin 16) :
    (frameChannels w i).val = pairValue w i := by
  simp [frameChannels, pairValue, joinBytes_val, Nat.mul_comm]

theorem scan_short (B : List Byte) (ch : Fin 16 → Word) (h : B.length < 35) :
    scan B ch = some (ch, B) := by
  cases B with
  | nil => rfl
  | cons b rest =>
    have : ¬ (b :: rest).length ≥ SBUS_FRAME_SIZE := by
      simp only [SBUS_FRAME_SIZE]; omega
    simp only [scan, this, if_false]

theorem scan_window (w : List Byte) (hl : w.length = 35) (ch : Fin 16 → Word)
    (r1 : Option ((Fin 16 → Word) × List Byte)) (tl : List Byte) :
    (match w[0]? with
      | none => none
      | some first =>
        if first.val ≠ START_BYTE then r1
        else
          match xorChecksum w, w[SBUS_FRAME_SIZE - 1]? with
          | some xor_checksum, some last =>
            if xor_checksum ≠ last.val then r1
            else
              match updateChannels w ch with
              | some channels' => some (channels', tl)
              | none => none
          | _, _ => none)
    = if ValidFrame w then some (frameChannels w, tl) else r1 := by
  have h0 : w[0]? = some w[0] := List.getElem?_eq_getElem (by omega)
  have h34 : w[34]? = some w[34] := List.getElem?_eq_getElem (by omega)
  simp only [SBUS_FRAME_SIZE, h0, xorChecksum_eq w hl, h34, updateChannels_eq w hl, ValidFrame,
    hl, Option.map_some', Option.some.injEq, true_and, START_BYTE]
  by_cases hb : w[0] = 15
  · have hb' : (w[0]).val = 15 := by rw [hb]; rfl
    by_cases hx : payloadXor w = (w[34]).val
    · have hv : w[0] = 15 ∧ (w[34]).val = payloadXor w := ⟨hb, hx.symm⟩
      rw [if_pos hv]
      simp [hb', hx]
    · have hx' : ¬ (w[34]).val = payloadXor w := fun e => hx e.symm
      simp [hb', hx, hx']
  · have hb' : ¬ (w[0]).val = 15 := fun e => hb (Fin.ext e)
    simp [hb, hb']

theorem scan_cons (b : Byte) (rest : List Byte) (ch : Fin 16 → Word)
    (h : 35 ≤ (b :: rest).length) :
    scan (b :: rest) ch
      = if ValidFrame ((b :: rest).take 35)
        then some (frameChannels ((b :: rest).take 35), (b :: rest).drop 35)
        else scan rest ch := by
  have hge : (b :: rest).length ≥ SBUS_FRAME_SIZE := h
  have hl : ((b :: rest).take 35).length = 35 := by
    rw [List.length_take]; omega
  rw [scan, if_pos hge]
  exact scan_window _ hl ch _ _




theorem scan_first_valid (ch : Fin 16 → Word) :
    ∀ (k : Nat) (B : List Byte), k + 35 ≤ B.length → ValidFrame (window B k) →
      (∀ j, j < k → ¬ ValidFrame (window B j)) →
      scan B ch = some (frameChannels (window B k), B.drop (k + 35)) := by
  intro k
  induction k with
  | zero =>
    intro B hk hv _
    cases B with
    | nil => simp at hk
    | cons b rest =>
      rw [scan_cons b rest ch (by omega)]
      simp only [window, List.drop_zero] at hv
      rw [if_pos hv]
      simp [window]
  | succ k ih =>
    intro B hk hv hmin
    cases B with
    | nil => simp at hk
    | cons b rest =>
      have h0 : ¬ ValidFrame (List.take 35 (b :: rest)) := by
        have := hmin 0 (by omega)
        simpa [window] using this
      rw [scan_cons b rest ch (by simp only [List.length_cons] at hk ⊢; omega), if_neg h0]
      have hk' : k + 35 ≤ rest.length := by simp only [List.length_cons] at hk; omega
      rw [ih rest hk' (by simpa [window] using hv)
        (fun j hj => by simpa [window] using hmin (j + 1) (by omega))]
      simp [window, Nat.add_right_comm]

theorem scan_none_valid (ch : Fin 16 → Word) :
    ∀ (B : List Byte), (∀ k, k + 35 ≤ B.length → ¬ ValidFrame (window B k)) →
      scan B ch = some (ch, B.drop (B.length - 34)) := by
  intro B
  induction B with
  | nil => intro _; rfl
  | cons b rest ih =>
    intro h
    by_cases hl : 35 ≤ (b :: rest).length
    · have h0 : ¬ ValidFrame (List.take 35 (b :: rest)) := by
        simpa [window] using h 0 (by omega)
      rw [scan_cons b rest ch hl, if_neg h0]
      rw [ih (fun k hk => by
        simpa [window] using h (k + 1) (by simp only [List.length_cons]; omega))]
      simp only [List.length_cons] at hl ⊢
      have : rest.length + 1 - 34 = (rest.length - 34) + 1 := by omega
      rw [this, List.drop_succ_cons]
    · rw [scan_short _ ch (by omega)]
      have : (b :: rest).length - 34 = 0 := by omega
      rw [this, List.drop_zero]

/-- The scan always returns, and what it returns is either the old channels
or the channels of a valid window of the scanned buffer. -/
theorem scan_total (ch : Fin 16 → Word) (B : List Byte) :
    (∃ buf, scan B ch = some (ch, buf)) ∨
    (∃ k, k + 35 ≤ B.length ∧ ValidFrame (window B k) ∧ (∀ j, j < k → ¬ ValidFrame (window B j)) ∧
      scan B ch = some (frameChannels (window B k), B.drop (k + 35))) := by
  by_cases h : ∃ k, k + 35 ≤ B.length ∧ ValidFrame (window B k)
  · right
    classical
    let k := Nat.find h
    have hk := Nat.find_spec h
    have hmin : ∀ j, j < k → ¬ ValidFrame (window B j) := by
      intro j hj hv
      exact Nat.find_min h hj ⟨by omega, hv⟩
    exact ⟨k, hk.1, hk.2, hmin, scan_first_valid ch k B hk.1 hk.2 hmin⟩
  · left
    refine ⟨_, scan_none_valid ch B ?_⟩
    intro k hk hv
    exact h ⟨k, hk, hv⟩

theorem channelAt_eq (channels : Fin 16 → Word) (n : Int) (h1 : 1 ≤ n) (h2 : n ≤ 16) :
    channelAt channels (n - 1) = some ((channels ⟨(n - 1).toNat, by omega⟩).val : Int) := by
  unfold channelAt
  rw [dif_pos (by omega)]

theorem readRCChannel_of_scan (n : Int) (h1 : 1 ≤ n) (h2 : n ≤ 16) (serial : List Byte)
    (st : Decoder) (channels : Fin 16 → Word) (buf : List Byte)
    (hs : scan (drain st.data_buffer serial) st.channels = some (channels, buf)) :
    readRCChannel n serial st
      = some ⟨((channels ⟨(n - 1).toNat, by omega⟩).val : Int), [], ⟨channels, buf⟩⟩ := by
  unfold readRCChannel
  rw [if_neg (by omega), hs]
  simp only [channelAt_eq channels n h1 h2]




theorem drain_eq (new : List Byte) :
    ∀ old : List Byte, old.length ≤ 350 →
      drain old new = (old ++ new).drop ((old ++ new).length - 350) := by
  induction new with
  | nil =>
    intro old h
    simp only [drain, List.append_nil]
    rw [Nat.sub_eq_zero_of_le h, List.drop_zero]
  | cons b rest ih =>
    intro old h
    simp only [drain, SBUS_FRAME_SIZE, List.length_append, List.length_singleton]
    by_cases hfull : old.length + 1 > 35 * 10
    · have hlen : old.length = 350 := by omega
      cases old with
      | nil => simp at hlen
      | cons x t =>
        rw [if_pos hfull]
        simp only [List.cons_append, List.tail_cons]
        simp only [List.length_cons] at hlen
        rw [ih (t ++ [b]) (by simp; omega)]
        simp only [List.append_assoc, List.singleton_append, List.length_append,
          List.length_cons]
        have e1 : t.length + (rest.length + 1) - 350 = rest.length := by omega
        have e2 : t.length + 1 + (rest.length + 1) - 350 = rest.length + 1 := by omega
        rw [e1, e2, List.drop_succ_cons]
    · rw [if_neg hfull]
      rw [ih (old ++ [b]) (by simp; omega)]
      simp [List.append_assoc]

theorem drain_length (old new : List Byte) (h : old.length ≤ 350) :
    (drain old new).length ≤ 350 := by
  rw [drain_eq new old h, List.length_drop]
  omega

theorem scan_length (ch : Fin 16 → Word) :
    ∀ (B : List Byte) (c : Fin 16 → Word) (buf : List Byte),
      scan B ch = some (c, buf) → buf.length ≤ B.length := by
  intro B
  induction B with
  | nil =>
    intro c buf h
    simp only [scan, Option.some.injEq, Prod.mk.injEq] at h
    rw [← h.2]
  | cons b rest ih =>
    intro c buf h
    by_cases hl : 35 ≤ (b :: rest).length
    · rw [scan_cons b rest ch hl] at h
      by_cases hv : ValidFrame (List.take 35 (b :: rest))
      · rw [if_pos hv] at h
        simp only [Option.some.injEq, Prod.mk.injEq] at h
        rw [← h.2, List.length_drop]; omega
      · rw [if_neg hv] at h
        have := ih c buf h
        simp only [List.length_cons]; omega
    · rw [scan_short _ ch (by omega)] at h
      simp only [Option.some.injEq, Prod.mk.injEq] at h
      rw [← h.2]





theorem foldl_xor_init (l : List Byte) :
    ∀ a : Nat, l.foldl (fun acc b => acc ^^^ b.val) a
      = a ^^^ l.foldl (fun acc b => acc ^^^ b.val) 0 := by
  induction l with
  | nil => intro a; simp
  | cons x t ih =>
    intro a
    simp only [List.foldl_cons, Nat.zero_xor]
    rw [ih (a ^^^ x.val), ih x.val, Nat.xor_assoc]

theorem xor_swap (a x b T : Nat) : a ^^^ b ^^^ T = a ^^^ x ^^^ T ^^^ (x ^^^ b) := by
  apply Nat.eq_of_testBit_eq
  intro i
  simp only [Nat.testBit_xor]
  cases a.testBit i <;> cases x.testBit i <;> cases b.testBit i <;> cases T.testBit i <;> rfl

theorem foldl_xor_set (b : Byte) (l : List Byte) :
    ∀ (j : Nat) (h : j < l.length) (a : Nat),
      (l.set j b).foldl (fun acc b => acc ^^^ b.val) a
        = l.foldl (fun acc b => acc ^^^ b.val) a ^^^ (l[j].val ^^^ b.val) := by
  induction l with
  | nil => intro j h; simp at h
  | cons x t ih =>
    intro j h a
    cases j with
    | zero =>
      simp only [List.set_cons_zero, List.foldl_cons, List.getElem_cons_zero]
      rw [foldl_xor_init t (a ^^^ b.val), foldl_xor_init t (a ^^^ x.val)]
      generalize List.foldl (fun acc b => acc ^^^ b.val) 0 t = T
      exact xor_swap a x.val b.val T
    | succ j =>
      simp only [List.set_cons_succ, List.foldl_cons, List.getElem_cons_succ]
      exact ih j (by simpa using h) _

theorem payloadXor_set (f : List Byte) (hl : f.length = 35) (k : Nat) (h1 : 1 ≤ k)
    (h2 : k ≤ 33) (b : Byte) :
    payloadXor (f.set k b) = payloadXor f ^^^ ((f.getD k 0).val ^^^ b.val) := by
  unfold payloadXor
  have hk : ¬ k < 1 := by omega
  rw [List.drop_set, if_neg hk, List.set_take]
  have hlen : k - 1 < ((f.drop 1).take 33).length := by
    simp [List.length_take, List.length_drop, hl]; omega
  rw [foldl_xor_set b _ (k - 1) hlen 0]
  congr 2
  have hkf : k < f.length := by omega
  rw [List.getD_eq_getElem?_getD, List.getElem?_eq_getElem hkf]
  simp only [List.getElem_take, List.getElem_drop, Option.getD_some]
  congr 2
  omega

theorem set_invalid (f : List Byte) (hv : ValidFrame f) (k : Nat) (h1 : 1 ≤ k) (h2 : k ≤ 33)
    (b : Byte) (hb : b ≠ f.getD k 0) : ¬ ValidFrame (f.set k b) := by
  obtain ⟨hl, _, h34⟩ := hv
  rintro ⟨_, _, h34'⟩
  rw [List.getElem?_set_ne (by omega), h34, payloadXor_set f hl k h1 h2 b] at h34'
  simp only [Option.some.injEq] at h34'
  have hz : (f.getD k 0).val ^^^ b.val = 0 := by
    have := congrArg (fun t => payloadXor f ^^^ t) h34'
    simpa [Nat.xor_cancel_left] using this.symm
  exact hb (Fin.ext (Nat.xor_eq_zero.mp hz).symm)





theorem readRCChannel_of_scan' (i : Fin 16) (serial : List Byte)
    (st : Decoder) (channels : Fin 16 → Word) (buf : List Byte)
    (hs : scan (drain st.data_buffer serial) st.channels = some (channels, buf)) :
    readRCChannel ((i.val : Int) + 1) serial st
      = some ⟨((channels i).val : Int), [], ⟨channels, buf⟩⟩ := by
  have hi := i.isLt
  rw [readRCChannel_of_scan _ (by omega) (by omega) serial st channels buf hs]
  simp

theorem drain_nil (serial : List Byte) (h : serial.length ≤ 350) : drain [] serial = serial := by
  rw [drain_eq serial [] (by simp)]
  simp [Nat.sub_eq_zero_of_le h]

theorem window_zero (f : List Byte) (h : f.length = 35) : window f 0 = f := by
  simp [window, List.take_of_length_le (Nat.le_of_eq h)]

theorem readRCChannel_frame (i : Fin 16) (f : List Byte) (hv : ValidFrame f)
    (ch : Fin 16 → Word) :
    readRCChannel ((i.val : Int) + 1) f ⟨ch, []⟩
      = some ⟨((frameChannels f i).val : Int), [], ⟨frameChannels f, []⟩⟩ := by
  have hl : f.length = 35 := hv.1
  have hs : scan (drain [] f) ch = some (frameChannels f, []) := by
    rw [drain_nil f (by omega),
      scan_first_valid ch 0 f (by omega) (by rw [window_zero f hl]; exact hv)
        (fun j hj => absurd hj (Nat.not_lt_zero j)),
      window_zero f hl]
    simp [hl]
  exact readRCChannel_of_scan' i f ⟨ch, []⟩ _ _ hs

end RCInput

/-! ## Lemmas about the controller and the control loop -/

namespace FlightControl

theorem stdClamp_mem {K : Type} [LinearOrderedField K] (v lo hi : K) (h : lo ≤ hi) :
    lo ≤ stdClamp v lo hi ∧ stdClamp v lo hi ≤ hi := by
  unfold stdClamp
  split_ifs with h1 h2
  · exact ⟨le_refl _, h⟩
  · exact ⟨h, le_refl _⟩
  · exact ⟨not_lt.mp h1, not_lt.mp h2⟩

theorem calculate_integral_limit {K : Type} [LinearOrderedField K] (pid : PIDController K)
    (setpoint measurement dt : K) :
    (pid.calculate setpoint measurement dt).2.integral_limit = pid.integral_limit := by
  unfold PIDController.calculate
  split_ifs <;> rfl

theorem calculate_integral_bound {K : Type} [LinearOrderedField K] (pid : PIDController K)
    (setpoint measurement dt : K) (hl : 0 ≤ pid.integral_limit)
    (hi : |pid.integral| ≤ pid.integral_limit) :
    |(pid.calculate setpoint measurement dt).2.integral| ≤ pid.integral_limit := by
  unfold PIDController.calculate
  split_ifs
  · exact hi
  · have h := stdClamp_mem (pid.integral + (setpoint - measurement) * dt)
      (-pid.integral_limit) pid.integral_limit (by linarith)
    exact abs_le.mpr h

theorem run_integral_bound {K : Type} [LinearOrderedField K] (calls : List (K × K × K)) :
    ∀ pid : PIDController K, 0 ≤ pid.integral_limit → |pid.integral| ≤ pid.integral_limit →
      |(pid.run calls).integral| ≤ pid.integral_limit := by
  induction calls with
  | nil => intro pid _ hi; exact hi
  | cons c rest ih =>
    intro pid hl hi
    obtain ⟨setpoint, measurement, dt⟩ := c
    simp only [PIDController.run]
    have hlim := calculate_integral_limit pid setpoint measurement dt
    have := ih (pid.calculate setpoint measurement dt).2 (by rw [hlim]; exact hl)
      (by rw [hlim]; exact calculate_integral_bound pid setpoint measurement dt hl hi)
    rw [hlim] at this
    exact this

theorem toInt_intCast (z : Int) : toInt (z : ℚ) = z := by
  unfold toInt
  split_ifs <;> simp

end FlightControl

/-! ## The control loop: fail-safe cutoff -/

namespace FlightControl

/-- C1: whenever the throttle channel value is at or below `RC_MIN` (172),
one cycle of `controlLoop` issues exactly the four calls
`setMotorSpeed(0..3, PWM_MIN)` with `PWM_MIN = 210`, whatever the aileron,
elevator and rudder values, the inertial sample, the controllers and `dt`. -/
theorem failsafe_cutoff (rollPID pitchPID : PIDController ℚ) (dt : ℚ) (localIMUData : IMUData)
    (throttle_value aileron_value elevator_value rudder_value : Int)
    (h : throttle_value ≤ RC_MIN) :
    (controlLoopCycle rollPID pitchPID dt localIMUData
        throttle_value aileron_value elevator_value rudder_value).calls
      = [⟨0, 210⟩, ⟨1, 210⟩, ⟨2, 210⟩, ⟨3, 210⟩] := by
  have ht : mapThrottle throttle_value = 0 := by
    unfold mapThrottle
    rw [if_pos h]
  have hp : computeThrottlePWM (mapThrottle throttle_value) = PWM_MIN := by
    rw [ht]
    unfold computeThrottlePWM
    rw [zero_mul, add_zero]
    exact toInt_intCast PWM_MIN
  unfold controlLoopCycle
  simp only [hp, le_refl, if_true]
  rfl

theorem failsafe_cutoff_witness :
    (100 : Int) ≤ RC_MIN ∧
    (controlLoopCycle rollPID0 pitchPID0 (1/100) ⟨30, -20, 0⟩ 100 1500 300 991).calls
      = [⟨0, 210⟩, ⟨1, 210⟩, ⟨2, 210⟩, ⟨3, 210⟩] :=
  ⟨by decide, failsafe_cutoff rollPID0 pitchPID0 (1/100) ⟨30, -20, 0⟩ 100 1500 300 991
    (by decide)⟩

end FlightControl

/-! ## The radio frame decoder -/

namespace RCInput

/-- C2 (as stated, refuted): `frameA` is a valid frame whose first packed
11-bit big-endian field is 1, yet `readRCChannel(1)` on it returns 32, the
16-bit pair made of its bytes 1 and 2. -/
theorem packed11_layout_counterexample :
    ValidFrame frameA ∧ packed11 frameA 1 = 1 ∧
    ∃ r, readRCChannel 1 frameA ⟨zeroChannels, []⟩ = some r ∧ r.value = 32 ∧ r.value ≠ 1 := by
  refine ⟨by decide, by decide, ?_⟩
  have h := readRCChannel_frame 0 frameA (by decide) zeroChannels
  refine ⟨_, h, ?_, ?_⟩ <;> decide

/-- C2 (amended): from an empty buffer, when the serial source delivers
exactly one valid 35-byte frame in which bytes `2i-1` and `2i` hold `v` as a
16-bit big-endian pair, `readRCChannel(i)` returns exactly `v`, for every
channel `i` in 1..16. -/
theorem readRCChannel_valid_frame (i v : Nat) (f : List Byte) (ch : Fin 16 → Word)
    (h1 : 1 ≤ i) (h2 : i ≤ 16) (hv : ValidFrame f)
    (hval : 256 * (f.getD (2 * i - 1) 0).val + (f.getD (2 * i) 0).val = v) :
    ∃ r, readRCChannel (i : Int) f ⟨ch, []⟩ = some r ∧ r.value = (v : Int) := by
  have h := readRCChannel_frame ⟨i - 1, by omega⟩ f hv ch
  have hi : (((⟨i - 1, by omega⟩ : Fin 16).val : Int) + 1) = (i : Int) := by
    simp only []
    omega
  rw [hi] at h
  refine ⟨_, h, ?_⟩
  simp only [frameChannels_val, pairValue]
  have e1 : 1 + 2 * (i - 1) = 2 * i - 1 := by omega
  have e2 : 2 + 2 * (i - 1) = 2 * i := by omega
  rw [e1, e2, hval]

theorem readRCChannel_valid_frame_witness :
    ValidFrame frameA ∧
    256 * (frameA.getD (2 * 1 - 1) 0).val + (frameA.getD (2 * 1) 0).val = 32 ∧
    ∃ r, readRCChannel ((1 : Nat) : Int) frameA ⟨zeroChannels, []⟩ = some r
      ∧ r.value = ((32 : Nat) : Int) :=
  ⟨by decide, by decide,
    readRCChannel_valid_frame 1 32 frameA zeroChannels (by decide) (by decide) (by decide)
      (by decide)⟩

/-- C3 (as stated, refuted): with the spurious byte `0x0F` in front of the
valid frame `frameB`, the window that starts at the spurious byte passes both
checks; `readRCChannel(1)` returns 3840 although channel 1 of `frameB` is 0,
and one byte stays in the buffer. -/
theorem spurious_start_byte_counterexample :
    ValidFrame frameB ∧ pairValue frameB 0 = 0 ∧
    ∃ r, readRCChannel 1 (0x0F :: frameB) ⟨zeroChannels, []⟩ = some r ∧
      r.value = 3840 ∧ r.state.data_buffer = [0x0F] ∧
      r.value ≠ (pairValue frameB 0 : Int) ∧ r.state.data_buffer ≠ [] := by
  refine ⟨by decide, by decide, ?_⟩
  have hs : scan (drain [] (0x0F :: frameB)) zeroChannels
      = some (frameChannels (window (0x0F :: frameB) 0), (0x0F :: frameB).drop (0 + 35)) := by
    rw [drain_nil _ (by decide)]
    exact scan_first_valid zeroChannels 0 _ (by decide) (by decide)
      (fun j hj => absurd hj (Nat.not_lt_zero j))
  have h := readRCChannel_of_scan' 0 (0x0F :: frameB) ⟨zeroChannels, []⟩ _ _ hs
  refine ⟨_, h, ?_, ?_, ?_, ?_⟩ <;> decide

/-- C3 (amended): for every byte `s` and every valid frame `f` such that the
35 bytes `s, f[0..33]` are not themselves a valid frame (always so when
`s ≠ 0x0F`), from an empty buffer one `readRCChannel(n)` call on `s` followed
by `f` sets the channels to the sixteen values of `f`, returns the value of
channel `n` of `f`, leaves the buffer empty, and ends exactly as the call on
`f` alone does: the resynchronisation costs the one byte `s`. -/
theorem readRCChannel_resync (s : Byte) (f : List Byte) (ch : Fin 16 → Word) (i : Fin 16)
    (hv : ValidFrame f) (hs : ¬ ValidFrame (s :: f.take 34)) :
    ∃ r, readRCChannel ((i.val : Int) + 1) (s :: f) ⟨ch, []⟩ = some r ∧
      (∀ c, (r.state.channels c).val = pairValue f c) ∧
      r.value = (pairValue f i : Int) ∧
      r.state.data_buffer = [] ∧
      readRCChannel ((i.val : Int) + 1) f ⟨ch, []⟩ = some r := by
  have hl : f.length = 35 := hv.1
  have hw1 : window (s :: f) 1 = f := by
    simp [window, List.take_of_length_le (Nat.le_of_eq hl)]
  have hscan : scan (drain [] (s :: f)) ch = some (frameChannels f, []) := by
    rw [drain_nil _ (by simp only [List.length_cons]; omega),
      scan_first_valid ch 1 (s :: f) (by simp only [List.length_cons]; omega)
        (by rw [hw1]; exact hv)
        (fun j hj => by
          have : j = 0 := by omega
          subst this
          simpa [window] using hs),
      hw1]
    simp [hl]
  refine ⟨_, readRCChannel_of_scan' i (s :: f) ⟨ch, []⟩ _ _ hscan, ?_, ?_, rfl, ?_⟩
  · intro c; exact frameChannels_val f c
  · simp only [frameChannels_val]
  · exact readRCChannel_frame i f hv ch

theorem readRCChannel_resync_witness :
    ValidFrame frameA ∧ ¬ ValidFrame (0x0F :: frameA.take 34) ∧
    ∃ r, readRCChannel (((0 : Fin 16).val : Int) + 1) (0x0F :: frameA) ⟨zeroChannels, []⟩
        = some r ∧
      (∀ c, (r.state.channels c).val = pairValue frameA c) ∧
      r.value = (pairValue frameA 0 : Int) ∧
      r.state.data_buffer = [] ∧
      readRCChannel (((0 : Fin 16).val : Int) + 1) frameA ⟨zeroChannels, []⟩ = some r :=
  ⟨by decide, by decide,
    readRCChannel_resync 0x0F frameA zeroChannels 0 (by decide) (by decide)⟩

/-- C4: a valid frame with one payload byte (position 1..33) replaced by a
different byte is discarded: from an empty buffer and any channel state,
`readRCChannel(n)` leaves the sixteen channels as they were, returns the old
value of channel `n`, and the buffer afterwards is the corrupted frame
without its first byte. -/
theorem readRCChannel_corrupted (f : List Byte) (k : Nat) (b : Byte) (ch : Fin 16 → Word)
    (i : Fin 16) (hv : ValidFrame f) (hk1 : 1 ≤ k) (hk2 : k ≤ 33) (hb : b ≠ f.getD k 0) :
    ∃ r, readRCChannel ((i.val : Int) + 1) (f.set k b) ⟨ch, []⟩ = some r ∧
      r.state.channels = ch ∧
      r.value = ((ch i).val : Int) ∧
      r.state.data_buffer = (f.set k b).tail := by
  have hl : (f.set k b).length = 35 := by rw [List.length_set]; exact hv.1
  have hbad : ¬ ValidFrame (f.set k b) := set_invalid f hv k hk1 hk2 b hb
  have hscan : scan (drain [] (f.set k b)) ch = some (ch, (f.set k b).tail) := by
    rw [drain_nil _ (by omega),
      scan_none_valid ch _ (fun j hj => by
        have : j = 0 := by omega
        subst this
        rw [window_zero _ hl]; exact hbad)]
    rw [hl]
    cases hf : f.set k b with
    | nil => rw [hf] at hl; simp at hl
    | cons x t => rfl
  exact ⟨_, readRCChannel_of_scan' i _ ⟨ch, []⟩ _ _ hscan, rfl, rfl, rfl⟩

theorem readRCChannel_corrupted_witness :
    ValidFrame frameA ∧ (0x21 : Byte) ≠ frameA.getD 2 0 ∧
    ∃ r, readRCChannel (((0 : Fin 16).val : Int) + 1) (frameA.set 2 0x21) ⟨zeroChannels, []⟩
        = some r ∧
      r.state.channels = zeroChannels ∧
      r.value = ((zeroChannels 0).val : Int) ∧
      r.state.data_buffer = (frameA.set 2 0x21).tail :=
  ⟨by decide, by decide,
    readRCChannel_corrupted frameA 2 0x21 zeroChannels 0 (by decide) (by decide) (by decide)
      (by decide)⟩

/-- C5: for every decoder state, every sequence of delivered bytes and every
channel number, `readRCChannel` returns (no index leaves the buffer or the
extracted frame), and the channels afterwards are either all unchanged or
all those of one 35-byte window of the drained buffer that starts with
`0x0F` and ends with the XOR of its bytes 1..33. -/
theorem readRCChannel_total (n : Int) (serial : List Byte) (st : Decoder) :
    ∃ r, readRCChannel n serial st = some r ∧
      (r.state.channels = st.channels ∨
        ∃ k, k + 35 ≤ (drain st.data_buffer serial).length ∧
          ValidFrame (window (drain st.data_buffer serial) k) ∧
          ∀ c, (r.state.channels c).val = pairValue (window (drain st.data_buffer serial) k) c) := by
  by_cases hn : n < 1 ∨ n > 16
  · exact ⟨⟨-1, serial, st⟩, by simp only [readRCChannel, if_pos hn], Or.inl rfl⟩
  · have h1 : 1 ≤ n := by omega
    have h2 : n ≤ 16 := by omega
    rcases scan_total st.channels (drain st.data_buffer serial) with
      ⟨buf, hs⟩ | ⟨k, hk, hv, _, hs⟩
    · exact ⟨_, readRCChannel_of_scan n h1 h2 serial st _ _ hs, Or.inl rfl⟩
    · exact ⟨_, readRCChannel_of_scan n h1 h2 serial st _ _ hs,
        Or.inr ⟨k, hk, hv, fun c => frameChannels_val _ c⟩⟩

/-- C6: `readRCChannel(n)` returns -1 exactly when `n < 1` or `n > 16`; in
that case nothing is read from the serial source and the buffer and the
sixteen channels are unchanged; for `n` in 1..16 the result lies in
0..65535. -/
theorem readRCChannel_invalid_channel (n : Int) (serial : List Byte) (st : Decoder) :
    ∃ r, readRCChannel n serial st = some r ∧
      (r.value = -1 ↔ (n < 1 ∨ n > 16)) ∧
      ((n < 1 ∨ n > 16) → r.serial = serial ∧ r.state = st) ∧
      ((1 ≤ n ∧ n ≤ 16) → 0 ≤ r.value ∧ r.value ≤ 65535) := by
  by_cases hn : n < 1 ∨ n > 16
  · refine ⟨⟨-1, serial, st⟩, by simp only [readRCChannel, if_pos hn], ?_, ?_, ?_⟩
    · exact ⟨fun _ => hn, fun _ => rfl⟩
    · intro _; exact ⟨rfl, rfl⟩
    · intro h; omega
  · have h1 : 1 ≤ n := by omega
    have h2 : n ≤ 16 := by omega
    have hshape : ∃ (channels : Fin 16 → Word) (buf : List Byte),
        scan (drain st.data_buffer serial) st.channels = some (channels, buf) := by
      rcases scan_total st.channels (drain st.data_buffer serial) with
        ⟨buf, hs⟩ | ⟨k, _, _, _, hs⟩
      · exact ⟨_, _, hs⟩
      · exact ⟨_, _, hs⟩
    obtain ⟨channels, buf, hs⟩ := hshape
    have hval := readRCChannel_of_scan n h1 h2 serial st channels buf hs
    refine ⟨_, hval, ?_, ?_, ?_⟩
    · have hlt := (channels ⟨(n - 1).toNat, by omega⟩).isLt
      constructor
      · intro h; simp only at h; omega
      · intro h; exact absurd h hn
    · intro h; exact absurd h hn
    · intro _
      have hlt := (channels ⟨(n - 1).toNat, by omega⟩).isLt
      simp only
      omega

/-- C7: let `B` be the buffer after the drain phase. If `k` is the least
offset at which a valid 35-byte window of `B` starts, then after the call the
channels are the sixteen values of that window, the returned value is that
of the requested channel, and the buffer is exactly `B` without its first
`k + 35` bytes (whatever that remainder contains); if no window of `B` is
valid, the channels are unchanged and the old value is returned. Either way
the call returns. -/
theorem readRCChannel_first_frame (i : Fin 16) (serial : List Byte) (st : Decoder) :
    ∃ r, readRCChannel ((i.val : Int) + 1) serial st = some r ∧
      (∀ k, k + 35 ≤ (drain st.data_buffer serial).length →
        ValidFrame (window (drain st.data_buffer serial) k) →
        (∀ j, j < k → ¬ ValidFrame (window (drain st.data_buffer serial) j)) →
          (∀ c, (r.state.channels c).val = pairValue (window (drain st.data_buffer serial) k) c) ∧
          r.value = (pairValue (window (drain st.data_buffer serial) k) i : Int) ∧
          r.state.data_buffer = (drain st.data_buffer serial).drop (k + 35)) ∧
      ((∀ k, k + 35 ≤ (drain st.data_buffer serial).length →
          ¬ ValidFrame (window (drain st.data_buffer serial) k)) →
        r.state.channels = st.channels ∧ r.value = ((st.channels i).val : Int)) := by
  rcases scan_total st.channels (drain st.data_buffer serial) with
    ⟨buf, hs⟩ | ⟨k0, hk0, hv0, hmin0, hs⟩
  · by_cases hex : ∃ k, k + 35 ≤ (drain st.data_buffer serial).length ∧
        ValidFrame (window (drain st.data_buffer serial) k) ∧
        ∀ j, j < k → ¬ ValidFrame (window (drain st.data_buffer serial) j)
    · obtain ⟨k, hk, hv, hmin⟩ := hex
      have hs' := scan_first_valid st.channels k _ hk hv hmin
      refine ⟨_, readRCChannel_of_scan' i serial st _ _ hs', ?_, ?_⟩
      · intro k' hk' hv' hmin'
        have hkk : k' = k := by
          rcases Nat.lt_trichotomy k' k with h | h | h
          · exact absurd hv' (hmin k' h)
          · exact h
          · exact absurd hv (hmin' k h)
        subst hkk
        exact ⟨fun c => frameChannels_val _ c, by simp only [frameChannels_val], rfl⟩
      · intro hnone
        exact absurd hv (hnone k hk)
    · refine ⟨_, readRCChannel_of_scan' i serial st _ _ hs, ?_, ?_⟩
      · intro k hk hv hmin
        exact absurd ⟨k, hk, hv, hmin⟩ hex
      · intro _
        exact ⟨rfl, rfl⟩
  · refine ⟨_, readRCChannel_of_scan' i serial st _ _ hs, ?_, ?_⟩
    · intro k' hk' hv' hmin'
      have hkk : k' = k0 := by
        rcases Nat.lt_trichotomy k' k0 with h | h | h
        · exact absurd hv' (hmin0 k' h)
        · exact h
        · exact absurd hv0 (hmin' k0 h)
      subst hkk
      exact ⟨fun c => frameChannels_val _ c, by simp only [frameChannels_val], rfl⟩
    · intro hnone
      exact absurd hv0 (hnone k0 hk0)

theorem readRCChannel_first_frame_witness :
    ∃ r, readRCChannel (((0 : Fin 16).val : Int) + 1) (frameA ++ frameB) ⟨zeroChannels, []⟩
        = some r ∧
      r.value = 32 ∧ r.state.data_buffer = frameB := by
  obtain ⟨r, hr, h1, _⟩ :=
    readRCChannel_first_frame 0 (frameA ++ frameB) ⟨zeroChannels, []⟩
  have hd : drain (Decoder.mk zeroChannels []).data_buffer (frameA ++ frameB)
      = frameA ++ frameB := drain_nil _ (by decide)
  rw [hd] at h1
  have h := h1 0 (by decide) (by decide) (fun j hj => absurd hj (Nat.not_lt_zero j))
  refine ⟨r, hr, ?_, ?_⟩
  · rw [h.2.1]; decide
  · rw [h.2.2]; decide

/-- C8: for a buffer of at most 350 bytes and any newly available bytes, the
buffer after the drain phase is the last `min 350 len` bytes of the old
buffer followed by the new bytes, so it holds at most 350 bytes; the scan
only removes bytes, so the buffer holds at most 350 bytes after the call. -/
theorem drain_bounded (old new : List Byte) (ch : Fin 16 → Word) (n : Int)
    (h : old.length ≤ 350) :
    drain old new
        = (old ++ new).drop ((old ++ new).length - min 350 (old ++ new).length) ∧
      (drain old new).length ≤ 350 ∧
      ∃ r, readRCChannel n new ⟨ch, old⟩ = some r ∧ r.state.data_buffer.length ≤ 350 := by
  refine ⟨?_, drain_length old new h, ?_⟩
  · have e : (old ++ new).length - min 350 (old ++ new).length
        = (old ++ new).length - 350 := by omega
    rw [drain_eq new old h, e]
  · by_cases hn : n < 1 ∨ n > 16
    · exact ⟨⟨-1, new, ⟨ch, old⟩⟩, by simp only [readRCChannel, if_pos hn], h⟩
    · have h1 : 1 ≤ n := by omega
      have h2 : n ≤ 16 := by omega
      have hshape : ∃ (channels : Fin 16 → Word) (buf : List Byte),
          scan (drain old new) ch = some (channels, buf) := by
        rcases scan_total ch (drain old new) with ⟨buf, hs⟩ | ⟨k, _, _, _, hs⟩
        · exact ⟨_, _, hs⟩
        · exact ⟨_, _, hs⟩
      obtain ⟨channels, buf, hs⟩ := hshape
      refine ⟨_, readRCChannel_of_scan n h1 h2 new ⟨ch, old⟩ channels buf hs, ?_⟩
      have := scan_length ch _ _ _ hs
      have := drain_length old new h
      simp only
      omega

theorem drain_bounded_witness :
    fullBuffer.length ≤ 350 ∧
    drain fullBuffer [1, 2]
        = (fullBuffer ++ [1, 2]).drop
            ((fullBuffer ++ [1, 2]).length - min 350 (fullBuffer ++ [1, 2]).length) ∧
      (drain fullBuffer [1, 2]).length ≤ 350 ∧
      ∃ r, readRCChannel 3 [1, 2] ⟨zeroChannels, fullBuffer⟩ = some r ∧
        r.state.data_buffer.length ≤ 350 :=
  ⟨Nat.le_of_eq (List.length_replicate 350 0x0F),
    drain_bounded fullBuffer [1, 2] zeroChannels 3
      (Nat.le_of_eq (List.length_replicate 350 0x0F))⟩

end RCInput

/-! ## The PID controller -/

namespace FlightControl

/-- C9: for every controller state, setpoint and measurement and every
`dt ≤ 0`, `calculate` returns 0 and leaves the controller (integral,
previous error, filtered derivative and all tuning fields) unchanged. -/
theorem calculate_nonpositive_dt {K : Type} [LinearOrderedField K] (pid : PIDController K)
    (setpoint measurement dt : K) (h : dt ≤ 0) :
    pid.calculate setpoint measurement dt = (0, pid) := by
  unfold PIDController.calculate
  rw [if_pos h]

theorem calculate_nonpositive_dt_witness :
    (0 : ℚ) ≤ 0 ∧ pitchPID0.calculate 5 3 0 = (0, pitchPID0) :=
  ⟨le_refl 0, calculate_nonpositive_dt pitchPID0 5 3 0 (le_refl 0)⟩

/-- C10: a controller constructed with `integral_limit ≥ 0` keeps
`|integral| ≤ integral_limit` after every call of every finite sequence of
`calculate` calls, whatever the setpoints, measurements and `dt` values. -/
theorem integral_bounded {K : Type} [LinearOrderedField K]
    (p i d ff i_limit out_limit filter_alpha : K) (h : 0 ≤ i_limit)
    (calls : List (K × K × K)) (m : Nat) :
    |((PIDController.init p i d ff i_limit out_limit filter_alpha).run
        (calls.take m)).integral| ≤ i_limit := by
  have := run_integral_bound (calls.take m)
    (PIDController.init p i d ff i_limit out_limit filter_alpha) h
    (by simp only [PIDController.init, abs_zero]; exact h)
  exact this

theorem integral_bounded_witness :
    (0 : ℚ) ≤ 10 ∧
    |((PIDController.init (2 : ℚ) (1/2) (1/5) 0 10 10 (1/10)).run
        ([(0, -7, 1), (0, -7, 1), (0, -7, 1)].take 2)).integral| ≤ 10 :=
  ⟨by norm_num, integral_bounded 2 (1/2) (1/5) 0 10 10 (1/10) (by norm_num) _ 2⟩

end FlightControl

/-! ## Lemmas about the actuator driver, the mappings and the mix -/

namespace FlightControl

theorem writeRegisterLoop_step (reg value : Fin 256) (retries : Nat) (bus : Bus) :
    writeRegisterLoop reg value retries bus =
      if bus.outcome bus.attempts then .returned (bus.deliver reg value)
      else if retries + 1 ≥ I2C_RETRY_LIMIT then .exited 1 bus.fail
      else writeRegisterLoop reg value (retries + 1) bus.fail := by
  rw [writeRegisterLoop]

theorem writeRegister_cases (reg value : Fin 256) (bus : Bus) :
    writeRegister reg value bus =
      if bus.outcome bus.attempts then .returned (bus.deliver reg value)
      else if bus.outcome (bus.attempts + 1) then .returned (bus.fail.deliver reg value)
      else if bus.outcome (bus.attempts + 2) then .returned (bus.fail.fail.deliver reg value)
      else .exited 1 bus.fail.fail.fail := by
  unfold writeRegister
  rw [writeRegisterLoop_step reg value 0 bus, writeRegisterLoop_step reg value 1 bus.fail,
    writeRegisterLoop_step reg value 2 bus.fail.fail]
  simp [I2C_RETRY_LIMIT, Bus.fail, Nat.add_assoc]

theorem writeRegister_ok (reg value : Fin 256) (bus : Bus)
    (h : bus.outcome bus.attempts = true) :
    writeRegister reg value bus = .returned (bus.deliver reg value) := by
  rw [writeRegister_cases, if_pos h]

theorem land_ff (x : Int) (h : 0 ≤ x) : Int.land x 0xFF = x % 256 := by
  obtain ⟨n, rfl⟩ := Int.eq_ofNat_of_zero_le h
  show ((n &&& 255 : Nat) : Int) = _
  rw [show (255 : Nat) = 2 ^ 8 - 1 from rfl, Nat.and_pow_two_sub_one_eq_mod]
  norm_num

theorem shr8 (x : Int) : x >>> (8 : Nat) = x / 256 := by
  rw [Int.shiftRight_eq_div_pow]; norm_num

theorem toUInt8_low (x : Int) (h : 0 ≤ x) :
    (toUInt8 (Int.land x 0xFF)).val = x.toNat % 256 := by
  rw [land_ff x h]
  simp only [toUInt8]
  omega

theorem toUInt8_high (x : Int) (h : 0 ≤ x) (h2 : x < 65536) :
    (toUInt8 (x >>> (8 : Nat))).val = x.toNat / 256 := by
  rw [shr8]
  simp only [toUInt8]
  omega

theorem deliver_outcome (bus : Bus) (reg value : Fin 256) :
    (bus.deliver reg value).outcome = bus.outcome := rfl

theorem setPWM_ok (channel on_val off_val : Int) (bus : Bus)
    (h : ∀ k, bus.outcome k = true) :
    setPWM channel on_val off_val bus = .returned
      ((((bus.deliver (toUInt8 (LED0_ON_L + 4 * channel)) (toUInt8 (Int.land on_val 0xFF))).deliver
        (toUInt8 (LED0_ON_L + 4 * channel + 1)) (toUInt8 (on_val >>> (8 : Nat)))).deliver
        (toUInt8 (LED0_OFF_L + 4 * channel)) (toUInt8 (Int.land off_val 0xFF))).deliver
        (toUInt8 (LED0_OFF_L + 4 * channel + 1)) (toUInt8 (off_val >>> (8 : Nat)))) := by
  unfold setPWM
  rw [writeRegister_ok _ _ bus (h _)]
  simp only [Outcome.andThen]
  rw [writeRegister_ok _ _ _ (by rw [deliver_outcome]; exact h _)]
  simp only [Outcome.andThen]
  rw [writeRegister_ok _ _ _ (by simp only [deliver_outcome]; exact h _)]
  simp only [Outcome.andThen]
  rw [writeRegister_ok _ _ _ (by simp only [deliver_outcome]; exact h _)]

theorem writeRegister_attempts (reg value : Fin 256) (bus : Bus) :
    bus.attempts < (writeRegister reg value bus).bus.attempts := by
  rw [writeRegister_cases]
  split_ifs <;> simp only [Outcome.bus, Bus.deliver, Bus.fail] <;> omega

theorem andThen_attempts (o : Outcome) (next : Bus → Outcome)
    (h : ∀ b, b.attempts ≤ (next b).bus.attempts) :
    o.bus.attempts ≤ (o.andThen next).bus.attempts := by
  cases o with
  | returned b => exact h b
  | exited status b => exact Nat.le_refl _

theorem setPWM_attempts (channel on_val off_val : Int) (bus : Bus) :
    bus.attempts < (setPWM channel on_val off_val bus).bus.attempts := by
  unfold setPWM
  have h1 := writeRegister_attempts (toUInt8 (LED0_ON_L + 4 * channel))
    (toUInt8 (Int.land on_val 0xFF)) bus
  have h2 := andThen_attempts
    (writeRegister (toUInt8 (LED0_ON_L + 4 * channel)) (toUInt8 (Int.land on_val 0xFF)) bus)
    (writeRegister (toUInt8 (LED0_ON_L + 4 * channel + 1)) (toUInt8 (on_val >>> (8 : Nat))))
    (fun b => Nat.le_of_lt (writeRegister_attempts _ _ b))
  have h3 := andThen_attempts
    ((writeRegister (toUInt8 (LED0_ON_L + 4 * channel)) (toUInt8 (Int.land on_val 0xFF))
      bus).andThen
      (writeRegister (toUInt8 (LED0_ON_L + 4 * channel + 1)) (toUInt8 (on_val >>> (8 : Nat)))))
    (writeRegister (toUInt8 (LED0_OFF_L + 4 * channel)) (toUInt8 (Int.land off_val 0xFF)))
    (fun b => Nat.le_of_lt (writeRegister_attempts _ _ b))
  have h4 := andThen_attempts
    (((writeRegister (toUInt8 (LED0_ON_L + 4 * channel)) (toUInt8 (Int.land on_val 0xFF))
      bus).andThen
      (writeRegister (toUInt8 (LED0_ON_L + 4 * channel + 1))
        (toUInt8 (on_val >>> (8 : Nat))))).andThen
      (writeRegister (toUInt8 (LED0_OFF_L + 4 * channel)) (toUInt8 (Int.land off_val 0xFF))))
    (writeRegister (toUInt8 (LED0_OFF_L + 4 * channel + 1)) (toUInt8 (off_val >>> (8 : Nat))))
    (fun b => Nat.le_of_lt (writeRegister_attempts _ _ b))
  omega

theorem regs_deliver4 (bus : Bus) (a0 a1 a2 a3 v0 v1 v2 v3 r : Fin 256) :
    ((((bus.deliver a0 v0).deliver a1 v1).deliver a2 v2).deliver a3 v3).regs r
      = if r = a3 then v3 else if r = a2 then v2 else if r = a1 then v1
        else if r = a0 then v0 else bus.regs r := by
  simp only [Bus.deliver, Function.update_apply]

theorem events_deliver4 (bus : Bus) (a0 a1 a2 a3 v0 v1 v2 v3 : Fin 256) :
    ((((bus.deliver a0 v0).deliver a1 v1).deliver a2 v2).deliver a3 v3).events
      = bus.events ++ [BusEvent.regWrite a0 v0, BusEvent.regWrite a1 v1,
          BusEvent.regWrite a2 v2, BusEvent.regWrite a3 v3] := by
  simp [Bus.deliver]

theorem toUInt8_land (x : Int) (h : 0 ≤ x) : toUInt8 (Int.land x 0xFF) = toUInt8 (x % 256) := by
  rw [land_ff x h]

theorem toUInt8_zero_land : toUInt8 (Int.land 0 0xFF) = 0 := by decide

theorem toUInt8_zero_shift : toUInt8 ((0 : Int) >>> (8 : Nat)) = 0 := by decide

theorem setMotorSpeed_ok (c : Fin 4) (pwm_value : Int) (bus : Bus)
    (h1 : 210 ≤ pwm_value) (h2 : pwm_value ≤ 405) (hok : ∀ k, bus.outcome k = true) :
    setMotorSpeed (c.val : Int) pwm_value bus = .returned
      ((((bus.deliver (toUInt8 (6 + 4 * c.val)) 0).deliver (toUInt8 (7 + 4 * c.val)) 0).deliver
        (toUInt8 (8 + 4 * c.val)) (toUInt8 (pwm_value % 256))).deliver
        (toUInt8 (9 + 4 * c.val)) (toUInt8 (pwm_value / 256))) := by
  have hc := c.isLt
  have hr' : ¬ (pwm_value < PWM_MIN ∨ pwm_value > PWM_MAX) := by
    simp only [PWM_MIN, PWM_MAX]; omega
  have e0 : toUInt8 (LED0_ON_L + 4 * (c.val : Int)) = toUInt8 (6 + 4 * c.val) := rfl
  have e1 : toUInt8 (LED0_ON_L + 4 * (c.val : Int) + 1) = toUInt8 (7 + 4 * c.val) :=
    congrArg toUInt8 (by simp only [LED0_ON_L]; omega)
  have e2 : toUInt8 (LED0_OFF_L + 4 * (c.val : Int)) = toUInt8 (8 + 4 * c.val) := rfl
  have e3 : toUInt8 (LED0_OFF_L + 4 * (c.val : Int) + 1) = toUInt8 (9 + 4 * c.val) :=
    congrArg toUInt8 (by simp only [LED0_OFF_L]; omega)
  simp only [setMotorSpeed, if_neg hr']
  rw [setPWM_ok _ _ _ bus hok, e1, e3, e0, e2, toUInt8_zero_land, toUInt8_zero_shift,
    toUInt8_land pwm_value (by omega), shr8]

theorem andThen_returned (b : Bus) (next : Bus → Outcome) :
    (Outcome.returned b).andThen next = next b := rfl

theorem stopAllMotors_eq (bus : Bus) :
    stopAllMotors bus =
      (((setMotorSpeed 0 SAFE_PWM bus).andThen (setMotorSpeed 1 SAFE_PWM)).andThen
        (setMotorSpeed 2 SAFE_PWM)).andThen (setMotorSpeed 3 SAFE_PWM) := rfl

theorem setMotorSpeed_safe0 (bus : Bus) (hok : ∀ k, bus.outcome k = true) :
    setMotorSpeed 0 SAFE_PWM bus
      = .returned ((((bus.deliver 6 0).deliver 7 0).deliver 8 210).deliver 9 0) :=
  setMotorSpeed_ok 0 SAFE_PWM bus (by decide) (by decide) hok

theorem setMotorSpeed_safe1 (bus : Bus) (hok : ∀ k, bus.outcome k = true) :
    setMotorSpeed 1 SAFE_PWM bus
      = .returned ((((bus.deliver 10 0).deliver 11 0).deliver 12 210).deliver 13 0) :=
  setMotorSpeed_ok 1 SAFE_PWM bus (by decide) (by decide) hok

theorem setMotorSpeed_safe2 (bus : Bus) (hok : ∀ k, bus.outcome k = true) :
    setMotorSpeed 2 SAFE_PWM bus
      = .returned ((((bus.deliver 14 0).deliver 15 0).deliver 16 210).deliver 17 0) :=
  setMotorSpeed_ok 2 SAFE_PWM bus (by decide) (by decide) hok

theorem setMotorSpeed_safe3 (bus : Bus) (hok : ∀ k, bus.outcome k = true) :
    setMotorSpeed 3 SAFE_PWM bus
      = .returned ((((bus.deliver 18 0).deliver 19 0).deliver 20 210).deliver 21 0) :=
  setMotorSpeed_ok 3 SAFE_PWM bus (by decide) (by decide) hok

theorem stopAllMotors_ok (bus : Bus) (hok : ∀ k, bus.outcome k = true) :
    stopAllMotors bus = .returned
      ((((((((((((((((bus.deliver 6 0).deliver 7 0).deliver 8 210).deliver 9 0).deliver
        10 0).deliver 11 0).deliver 12 210).deliver 13 0).deliver
        14 0).deliver 15 0).deliver 16 210).deliver 17 0).deliver
        18 0).deliver 19 0).deliver 20 210).deliver 21 0) := by
  simp only [stopAllMotors_eq, andThen_returned, setMotorSpeed_safe0, setMotorSpeed_safe1,
    setMotorSpeed_safe2, setMotorSpeed_safe3, deliver_outcome, hok, implies_true]

theorem regs_after_stop (bus : Bus) (r : Fin 256) :
    (r.val = 8 ∨ r.val = 12 ∨ r.val = 16 ∨ r.val = 20 →
      ((((((((((((((((bus.deliver 6 0).deliver 7 0).deliver 8 210).deliver 9 0).deliver
        10 0).deliver 11 0).deliver 12 210).deliver 13 0).deliver
        14 0).deliver 15 0).deliver 16 210).deliver 17 0).deliver
        18 0).deliver 19 0).deliver 20 210).deliver 21 0).regs r = 210) ∧
    (r.val = 9 ∨ r.val = 13 ∨ r.val = 17 ∨ r.val = 21 →
      ((((((((((((((((bus.deliver 6 0).deliver 7 0).deliver 8 210).deliver 9 0).deliver
        10 0).deliver 11 0).deliver 12 210).deliver 13 0).deliver
        14 0).deliver 15 0).deliver 16 210).deliver 17 0).deliver
        18 0).deliver 19 0).deliver 20 210).deliver 21 0).regs r = 0) := by
  constructor
  · rintro (h | h | h | h)
    · obtain rfl : r = 8 := Fin.ext h
      simp [Bus.deliver, Function.update_apply]
    · obtain rfl : r = 12 := Fin.ext h
      simp [Bus.deliver, Function.update_apply]
    · obtain rfl : r = 16 := Fin.ext h
      simp [Bus.deliver, Function.update_apply]
    · obtain rfl : r = 20 := Fin.ext h
      simp [Bus.deliver, Function.update_apply]
  · rintro (h | h | h | h)
    · obtain rfl : r = 9 := Fin.ext h
      simp [Bus.deliver, Function.update_apply]
    · obtain rfl : r = 13 := Fin.ext h
      simp [Bus.deliver, Function.update_apply]
    · obtain rfl : r = 17 := Fin.ext h
      simp [Bus.deliver, Function.update_apply]
    · obtain rfl : r = 21 := Fin.ext h
      simp [Bus.deliver, Function.update_apply]

theorem stdClamp_eq_max_min {K : Type} [LinearOrder K] (v lo hi : K) (h : lo ≤ hi) :
    stdClamp v lo hi = max lo (min v hi) := by
  unfold stdClamp
  split_ifs with h1 h2
  · rw [max_eq_left]
    exact le_trans (min_le_left _ _) (le_of_lt h1)
  · rw [min_eq_right (le_of_lt h2), max_eq_right h]
  · rw [min_eq_left (not_lt.mp h2), max_eq_right (not_lt.mp h1)]

theorem fill_buffer (pwm_values : Fin 4 → Int) (buffer : Fin 17 → Fin 256) :
    (List.finRange 4).foldl (fillChannel pwm_values)
        (Function.update buffer 0 (toUInt8 LED0_ON_L))
      = fillChannel pwm_values (fillChannel pwm_values (fillChannel pwm_values
          (fillChannel pwm_values (Function.update buffer 0 (toUInt8 LED0_ON_L)) 0) 1) 2) 3 := rfl

theorem filled_entries (pwm_values : Fin 4 → Int) (buffer : Fin 17 → Fin 256) (i : Fin 4) :
    (List.finRange 4).foldl (fillChannel pwm_values)
        (Function.update buffer 0 (toUInt8 LED0_ON_L)) 0 = 6 ∧
    (List.finRange 4).foldl (fillChannel pwm_values)
        (Function.update buffer 0 (toUInt8 LED0_ON_L))
        ⟨1 + i.val * 4, by have := i.isLt; omega⟩ = 0 ∧
    (List.finRange 4).foldl (fillChannel pwm_values)
        (Function.update buffer 0 (toUInt8 LED0_ON_L))
        ⟨2 + i.val * 4, by have := i.isLt; omega⟩ = 0 ∧
    (List.finRange 4).foldl (fillChannel pwm_values)
        (Function.update buffer 0 (toUInt8 LED0_ON_L))
        ⟨3 + i.val * 4, by have := i.isLt; omega⟩
      = toUInt8 (Int.land (stdClamp (pwm_values i) PWM_MIN PWM_MAX) 0xFF) ∧
    (List.finRange 4).foldl (fillChannel pwm_values)
        (Function.update buffer 0 (toUInt8 LED0_ON_L))
        ⟨4 + i.val * 4, by have := i.isLt; omega⟩
      = toUInt8 (stdClamp (pwm_values i) PWM_MIN PWM_MAX >>> (8 : Nat)) := by
  rw [fill_buffer]
  fin_cases i <;> exact ⟨rfl, rfl, rfl, rfl, rfl⟩

theorem stdClamp_pwm_range (p : Int) :
    210 ≤ stdClamp p PWM_MIN PWM_MAX ∧ stdClamp p PWM_MIN PWM_MAX ≤ 405 ∧
    stdClamp p PWM_MIN PWM_MAX = max 210 (min p 405) ∧
    (p > 405 → stdClamp p PWM_MIN PWM_MAX = 405) ∧
    (p < 210 → stdClamp p PWM_MIN PWM_MAX = 210) := by
  have hm := stdClamp_eq_max_min p PWM_MIN PWM_MAX (by decide)
  simp only [PWM_MIN, PWM_MAX] at hm ⊢
  rw [hm]
  refine ⟨le_max_left _ _, max_le (by decide) (min_le_right _ _), rfl, ?_, ?_⟩
  · intro h
    rw [min_eq_right (by omega), max_eq_right (by decide)]
  · intro h
    rw [min_eq_left (by omega), max_eq_left (by omega)]

theorem mapThrottle_range (value : Int) : 0 ≤ mapThrottle value ∧ mapThrottle value ≤ 1 := by
  unfold mapThrottle
  split_ifs with h1 h2
  · exact ⟨le_refl _, zero_le_one⟩
  · exact ⟨zero_le_one, le_refl _⟩
  · simp only [RC_MIN, RC_MAX] at *
    have hpos : (0 : ℚ) < ((1811 - 172 : Int) : ℚ) := by norm_num
    constructor
    · apply div_nonneg
      · exact_mod_cast (by omega : (0 : Int) ≤ value - 172)
      · exact le_of_lt hpos
    · rw [div_le_one hpos]
      exact_mod_cast (by omega : value - 172 ≤ 1811 - 172)

theorem toInt_mono_bounds (x : ℚ) (a b : Int) (ha : (a : ℚ) ≤ x) (hb : x ≤ (b : ℚ))
    (h0 : 0 ≤ a) : a ≤ toInt x ∧ toInt x ≤ b := by
  have hx : 0 ≤ x := le_trans (by exact_mod_cast h0) ha
  unfold toInt
  rw [if_pos hx]
  exact ⟨Int.le_floor.mpr ha, Int.floor_le_iff.mpr (lt_of_le_of_lt hb (by simp))⟩

theorem computeThrottlePWM_range (value : Int) :
    PWM_MIN ≤ computeThrottlePWM (mapThrottle value) ∧
      computeThrottlePWM (mapThrottle value) ≤ PWM_MAX := by
  obtain ⟨h0, h1⟩ := mapThrottle_range value
  unfold computeThrottlePWM
  apply toInt_mono_bounds
  · simp only [PWM_MIN, PWM_MAX]
    have : (0 : ℚ) ≤ mapThrottle value * ((405 - 210 : Int) : ℚ) :=
      mul_nonneg h0 (by norm_num)
    push_cast at this ⊢
    linarith
  · simp only [PWM_MIN, PWM_MAX]
    push_cast
    nlinarith
  · decide

theorem clamp_range (value : Int) :
    PWM_MIN ≤ clamp value PWM_MIN PWM_MAX ∧ clamp value PWM_MIN PWM_MAX ≤ PWM_MAX := by
  unfold clamp
  simp only [PWM_MIN, PWM_MAX]
  split_ifs <;> omega

theorem clamp_id (value : Int) (h1 : PWM_MIN ≤ value) (h2 : value ≤ PWM_MAX) :
    clamp value PWM_MIN PWM_MAX = value := by
  unfold clamp
  split_ifs <;> omega

theorem mapControlInput_mid : mapControlInput RC_MID = 0 := by
  unfold mapControlInput
  simp [RC_MID, RC_MIN, RC_MAX]

theorem computeAdjustment_zero : computeAdjustment 0 = 0 := by
  unfold computeAdjustment toInt
  simp

theorem cycle_calls (rollPID pitchPID : PIDController ℚ) (dt : ℚ) (localIMUData : IMUData)
    (throttle_value aileron_value elevator_value rudder_value : Int) :
    (controlLoopCycle rollPID pitchPID dt localIMUData
        throttle_value aileron_value elevator_value rudder_value).calls
      = if computeThrottlePWM (mapThrottle throttle_value) ≤ PWM_MIN then
          [⟨0, PWM_MIN⟩, ⟨1, PWM_MIN⟩, ⟨2, PWM_MIN⟩, ⟨3, PWM_MIN⟩]
        else
          mixCalls (computeThrottlePWM (mapThrottle throttle_value))
            (computeAdjustment (mapControlInput aileron_value) +
              (if |roll_com - localIMUData.roll_angle| > TOLERANCE_ROLL then
                toInt (rollPID.calculate roll_com localIMUData.roll_angle dt).1 else 0))
            (computeAdjustment (mapControlInput elevator_value) +
              (if |pitch_com - localIMUData.pitch_angle| > TOLERANCE_PITCH then
                toInt (pitchPID.calculate pitch_com localIMUData.pitch_angle dt).1 else 0))
            0 := by
  unfold controlLoopCycle mixCalls
  by_cases hf : computeThrottlePWM (mapThrottle throttle_value) ≤ PWM_MIN
  · simp only [hf, if_true]
  · simp only [hf, if_false]
    split_ifs <;> rfl

theorem cycle_neutral_calls (rollPID pitchPID : PIDController ℚ) (dt : ℚ)
    (localIMUData : IMUData) (throttle_value rudder_value : Int)
    (hr : roll_com - localIMUData.roll_angle = 0)
    (hp : pitch_com - localIMUData.pitch_angle = 0) :
    (controlLoopCycle rollPID pitchPID dt localIMUData
        throttle_value RC_MID RC_MID rudder_value).calls
      = [⟨0, computeThrottlePWM (mapThrottle throttle_value)⟩,
         ⟨1, computeThrottlePWM (mapThrottle throttle_value)⟩,
         ⟨2, computeThrottlePWM (mapThrottle throttle_value)⟩,
         ⟨3, computeThrottlePWM (mapThrottle throttle_value)⟩] := by
  obtain ⟨h1, h2⟩ := computeThrottlePWM_range throttle_value
  rw [cycle_calls]
  by_cases hf : computeThrottlePWM (mapThrottle throttle_value) ≤ PWM_MIN
  · have : computeThrottlePWM (mapThrottle throttle_value) = PWM_MIN := le_antisymm hf h1
    rw [if_pos hf, this]
  · have hr' : ¬ |roll_com - localIMUData.roll_angle| > TOLERANCE_ROLL := by
      rw [hr]; norm_num [TOLERANCE_ROLL]
    have hp' : ¬ |pitch_com - localIMUData.pitch_angle| > TOLERANCE_PITCH := by
      rw [hp]; norm_num [TOLERANCE_PITCH]
    rw [if_neg hf, if_neg hr', if_neg hp', mapControlInput_mid, computeAdjustment_zero]
    simp only [mixCalls, add_zero, neg_zero, sub_zero, clamp_id _ h1 h2]

theorem computeThrottlePWM_full : computeThrottlePWM (mapThrottle 1811) = 405 := by
  have h : mapThrottle 1811 = 1 := by
    unfold mapThrottle
    rw [if_neg (by decide), if_pos (by decide)]
  rw [h]
  unfold computeThrottlePWM
  have e : ((PWM_MIN : Int) : ℚ) + 1 * ((PWM_MAX - PWM_MIN : Int) : ℚ) = ((405 : Int) : ℚ) := by
    norm_num [PWM_MIN, PWM_MAX]
  rw [e]
  exact toInt_intCast 405

theorem computeAdjustment_full : computeAdjustment (mapControlInput 1811) = 10 := by
  have h : mapControlInput 1811 = 1 := by
    unfold mapControlInput
    rw [if_neg (by decide), if_neg (by decide), if_pos (by decide)]
    norm_num [RC_MAX, RC_MID]
  rw [h]
  unfold computeAdjustment
  have e : (1 : ℚ) * ((MAX_ADJUSTMENT : Int) : ℚ) = ((10 : Int) : ℚ) := by
    norm_num [MAX_ADJUSTMENT]
  rw [e]
  exact toInt_intCast 10

end FlightControl

/-! ## The PID output law, the motor mix and the actuator driver -/

namespace FlightControl

/-- C11: for a controller with `integral_limit ≥ 0` and `output_limit ≥ 0`
and every `dt > 0`, with `e = setpoint - measurement`,
`I = clamp(integral + e*dt, -integral_limit, integral_limit)` and
`D = alpha*(e - prev_error)/dt + (1 - alpha)*filtered_derivative`,
`calculate` returns `clamp(feedforward*setpoint + kp*e + ki*I + kd*D,
-output_limit, output_limit)`, which lies between `-output_limit` and
`output_limit`, and leaves the controller with `integral = I`,
`filtered_derivative = D`, `prev_error = e` and the tuning fields unchanged;
`clamp(v, lo, hi)` is `max lo (min v hi)`. -/
theorem calculate_output_law {K : Type} [LinearOrderedField K] (pid : PIDController K)
    (setpoint measurement dt : K) (hI : 0 ≤ pid.integral_limit) (hO : 0 ≤ pid.output_limit)
    (hdt : 0 < dt) :
    (pid.calculate setpoint measurement dt).1
        = max (-pid.output_limit) (min
            (pid.feedforward * setpoint + pid.kp * (setpoint - measurement)
              + pid.ki * max (-pid.integral_limit)
                  (min (pid.integral + (setpoint - measurement) * dt) pid.integral_limit)
              + pid.kd * (pid.alpha * (setpoint - measurement - pid.prev_error) / dt
                  + (1 - pid.alpha) * pid.filtered_derivative))
            pid.output_limit) ∧
    -pid.output_limit ≤ (pid.calculate setpoint measurement dt).1 ∧
    (pid.calculate setpoint measurement dt).1 ≤ pid.output_limit ∧
    (pid.calculate setpoint measurement dt).2 =
      { kp := pid.kp, ki := pid.ki, kd := pid.kd,
        prev_error := setpoint - measurement,
        integral := max (-pid.integral_limit)
          (min (pid.integral + (setpoint - measurement) * dt) pid.integral_limit),
        integral_limit := pid.integral_limit,
        output_limit := pid.output_limit,
        feedforward := pid.feedforward,
        filtered_derivative := pid.alpha * (setpoint - measurement - pid.prev_error) / dt
          + (1 - pid.alpha) * pid.filtered_derivative,
        alpha := pid.alpha } := by
  have hI' : -pid.integral_limit ≤ pid.integral_limit := by linarith
  have hO' : -pid.output_limit ≤ pid.output_limit := by linarith
  have hnot : ¬ dt ≤ 0 := not_le.mpr hdt
  unfold PIDController.calculate
  rw [if_neg hnot]
  simp only [stdClamp_eq_max_min _ _ _ hI', stdClamp_eq_max_min _ _ _ hO', mul_div_assoc]
  refine ⟨trivial, le_max_left _ _, max_le hO' (min_le_right _ _), trivial⟩

theorem calculate_output_law_witness :
    (0 : ℚ) ≤ pitchPID0.integral_limit ∧ (0 : ℚ) ≤ pitchPID0.output_limit ∧ (0 : ℚ) < 1 ∧
    -pitchPID0.output_limit ≤ (pitchPID0.calculate 0 (-7) 1).1 ∧
    (pitchPID0.calculate 0 (-7) 1).1 ≤ pitchPID0.output_limit :=
  ⟨by norm_num [pitchPID0, PIDController.init], by norm_num [pitchPID0, PIDController.init],
    by norm_num,
    (calculate_output_law pitchPID0 0 (-7) 1 (by norm_num [pitchPID0, PIDController.init])
      (by norm_num [pitchPID0, PIDController.init]) (by norm_num)).2.1,
    (calculate_output_law pitchPID0 0 (-7) 1 (by norm_num [pitchPID0, PIDController.init])
      (by norm_num [pitchPID0, PIDController.init]) (by norm_num)).2.2.1⟩

/-- C12: for every throttle value (above the receiver minimum or not), with
aileron and elevator at `RC_MID` (991) and zero roll and pitch error, the
four pulses of the cycle all equal the base pulse
`computeThrottlePWM(mapThrottle(throttle))`, whatever the rudder value, the
controllers and `dt`. -/
theorem symmetric_mix_cancels (rollPID pitchPID : PIDController ℚ) (dt : ℚ)
    (localIMUData : IMUData) (throttle_value rudder_value : Int)
    (hr : roll_com - localIMUData.roll_angle = 0)
    (hp : pitch_com - localIMUData.pitch_angle = 0) :
    (controlLoopCycle rollPID pitchPID dt localIMUData
        throttle_value RC_MID RC_MID rudder_value).calls
      = [⟨0, computeThrottlePWM (mapThrottle throttle_value)⟩,
         ⟨1, computeThrottlePWM (mapThrottle throttle_value)⟩,
         ⟨2, computeThrottlePWM (mapThrottle throttle_value)⟩,
         ⟨3, computeThrottlePWM (mapThrottle throttle_value)⟩] ∧
    (controlLoopCycle rollPID pitchPID dt localIMUData
        throttle_value 991 991 rudder_value).calls.map MotorCall.pwm_value
      = List.replicate 4 (computeThrottlePWM (mapThrottle throttle_value)) := by
  have h := cycle_neutral_calls rollPID pitchPID dt localIMUData throttle_value rudder_value
    hr hp
  refine ⟨h, ?_⟩
  have h' : (controlLoopCycle rollPID pitchPID dt localIMUData
        throttle_value 991 991 rudder_value).calls = _ := h
  rw [h']
  rfl

theorem symmetric_mix_cancels_witness :
    (1811 : Int) > RC_MIN ∧
    (controlLoopCycle rollPID0 pitchPID0 (1/100) ⟨0, 0, 3⟩ 1811 RC_MID RC_MID 300).calls
      = [⟨0, computeThrottlePWM (mapThrottle 1811)⟩,
         ⟨1, computeThrottlePWM (mapThrottle 1811)⟩,
         ⟨2, computeThrottlePWM (mapThrottle 1811)⟩,
         ⟨3, computeThrottlePWM (mapThrottle 1811)⟩] :=
  ⟨by decide,
    (symmetric_mix_cancels rollPID0 pitchPID0 (1/100) ⟨0, 0, 3⟩ 1811 300
      (by norm_num [roll_com]) (by norm_num [pitch_com])).1⟩

/-- C13: for every four `int`s, `setAllMotorsSpeeds` does nothing but hand
one array of 17 bytes and the size 17 to `asyncWrite`, once; byte 0 of the
array is `0x06`, and for each `i` in 0..3 bytes `1+4i` and `2+4i` are 0 and
bytes `3+4i` and `4+4i` are the low and the high byte of `p[i]` clamped to
210..405, whatever the array held before; so a value above 405 is sent as
405 (bytes 149 and 1) and a value below 210 as 210 (bytes 210 and 0). -/
theorem setAllMotorsSpeeds_clamps (asyncWrite : (Fin 17 → Fin 256) → Nat → Bus → Outcome)
    (pwm_values : Fin 4 → Int) (buffer : Fin 17 → Fin 256) (bus : Bus) :
    ∃ sent : Fin 17 → Fin 256,
      setAllMotorsSpeeds asyncWrite pwm_values buffer bus = asyncWrite sent 17 bus ∧
      sent 0 = 6 ∧
      ∀ i : Fin 4, ∀ j : Fin 17,
        (j.val = 1 + 4 * i.val ∨ j.val = 2 + 4 * i.val → sent j = 0) ∧
        (j.val = 3 + 4 * i.val →
          (sent j).val = (max 210 (min (pwm_values i) 405)).toNat % 256) ∧
        (j.val = 4 + 4 * i.val →
          (sent j).val = (max 210 (min (pwm_values i) 405)).toNat / 256) ∧
        (pwm_values i > 405 → j.val = 3 + 4 * i.val → sent j = 149) ∧
        (pwm_values i > 405 → j.val = 4 + 4 * i.val → sent j = 1) ∧
        (pwm_values i < 210 → j.val = 3 + 4 * i.val → sent j = 210) ∧
        (pwm_values i < 210 → j.val = 4 + 4 * i.val → sent j = 0) := by
  refine ⟨_, rfl, (filled_entries pwm_values buffer 0).1, ?_⟩
  intro i j
  obtain ⟨_, e1, e2, e3, e4⟩ := filled_entries pwm_values buffer i
  obtain ⟨c1, c2, c3, c4, c5⟩ := stdClamp_pwm_range (pwm_values i)
  have hi := i.isLt
  have j3 : j.val = 3 + 4 * i.val → j = ⟨3 + i.val * 4, by omega⟩ :=
    fun h => Fin.ext (by simp only []; omega)
  have j4 : j.val = 4 + 4 * i.val → j = ⟨4 + i.val * 4, by omega⟩ :=
    fun h => Fin.ext (by simp only []; omega)
  refine ⟨?_, ?_, ?_, ?_, ?_, ?_, ?_⟩
  · rintro (h | h)
    · have hj : j = ⟨1 + i.val * 4, by omega⟩ := Fin.ext (by simp only []; omega)
      rw [hj]; exact e1
    · have hj : j = ⟨2 + i.val * 4, by omega⟩ := Fin.ext (by simp only []; omega)
      rw [hj]; exact e2
  · intro h
    rw [j3 h, e3, toUInt8_low _ (by omega), c3]
  · intro h
    rw [j4 h, e4, toUInt8_high _ (by omega) (by omega), c3]
  · intro hp h
    rw [j3 h, e3, c4 hp]; decide
  · intro hp h
    rw [j4 h, e4, c4 hp]; decide
  · intro hp h
    rw [j3 h, e3, c5 hp]; decide
  · intro hp h
    rw [j4 h, e4, c5 hp]; decide

/-- C14: for a channel `c` in 0..3, `setMotorSpeed(c, pulse)` attempts no bus
write at all, and returns with the bus and every register as they were,
exactly when `pulse < 210` or `pulse > 405`; otherwise, when the bus writes
go through, it writes 0 to registers `6+4c` and `7+4c`, then the low and the
high byte of `pulse` to registers `8+4c` and `9+4c`, and leaves every other
register unchanged. -/
theorem setMotorSpeed_validates (c : Fin 4) (pwm_value : Int) (bus : Bus) :
    ((setMotorSpeed (c.val : Int) pwm_value bus).bus.attempts = bus.attempts ↔
        (pwm_value < 210 ∨ pwm_value > 405)) ∧
    ((pwm_value < 210 ∨ pwm_value > 405) →
        setMotorSpeed (c.val : Int) pwm_value bus = .returned bus) ∧
    (210 ≤ pwm_value → pwm_value ≤ 405 → (∀ k, bus.outcome k = true) →
      ∃ b, setMotorSpeed (c.val : Int) pwm_value bus = .returned b ∧
        b.events = bus.events ++
          [BusEvent.regWrite (toUInt8 (6 + 4 * c.val)) 0,
           BusEvent.regWrite (toUInt8 (7 + 4 * c.val)) 0,
           BusEvent.regWrite (toUInt8 (8 + 4 * c.val)) (toUInt8 (pwm_value % 256)),
           BusEvent.regWrite (toUInt8 (9 + 4 * c.val)) (toUInt8 (pwm_value / 256))] ∧
        ∀ r : Fin 256,
          (r.val = 6 + 4 * c.val ∨ r.val = 7 + 4 * c.val → b.regs r = 0) ∧
          (r.val = 8 + 4 * c.val → (b.regs r).val = pwm_value.toNat % 256) ∧
          (r.val = 9 + 4 * c.val → (b.regs r).val = pwm_value.toNat / 256) ∧
          (r.val < 6 + 4 * c.val ∨ 9 + 4 * c.val < r.val → b.regs r = bus.regs r)) := by
  have hc := c.isLt
  refine ⟨?_, ?_, ?_⟩
  · constructor
    · intro h
      by_contra hr
      have hr' : ¬ (pwm_value < PWM_MIN ∨ pwm_value > PWM_MAX) := hr
      simp only [setMotorSpeed, if_neg hr'] at h
      have := setPWM_attempts (c.val : Int) 0 pwm_value bus
      omega
    · intro hr
      have hr' : pwm_value < PWM_MIN ∨ pwm_value > PWM_MAX := hr
      simp only [setMotorSpeed, if_pos hr', Outcome.bus]
  · intro hr
    have hr' : pwm_value < PWM_MIN ∨ pwm_value > PWM_MAX := hr
    simp only [setMotorSpeed, if_pos hr']
  · intro h1 h2 hok
    have hr' : ¬ (pwm_value < PWM_MIN ∨ pwm_value > PWM_MAX) := by
      simp only [PWM_MIN, PWM_MAX]; omega
    have e0 : toUInt8 (LED0_ON_L + 4 * (c.val : Int)) = toUInt8 (6 + 4 * c.val) := rfl
    have e1 : toUInt8 (LED0_ON_L + 4 * (c.val : Int) + 1) = toUInt8 (7 + 4 * c.val) :=
      congrArg toUInt8 (by simp only [LED0_ON_L]; omega)
    have e2 : toUInt8 (LED0_OFF_L + 4 * (c.val : Int)) = toUInt8 (8 + 4 * c.val) := rfl
    have e3 : toUInt8 (LED0_OFF_L + 4 * (c.val : Int) + 1) = toUInt8 (9 + 4 * c.val) :=
      congrArg toUInt8 (by simp only [LED0_OFF_L]; omega)
    simp only [setMotorSpeed, if_neg hr']
    rw [setPWM_ok _ _ _ bus hok, e1, e3, e0, e2, toUInt8_zero_land, toUInt8_zero_shift,
      toUInt8_land pwm_value (by omega), shr8]
    refine ⟨_, rfl, events_deliver4 _ _ _ _ _ _ _ _ _, ?_⟩
    intro r
    rw [regs_deliver4]
    have a0 : (toUInt8 (6 + 4 * (c.val : Int))).val = 6 + 4 * c.val := by
      simp only [toUInt8]; omega
    have a1 : (toUInt8 (7 + 4 * (c.val : Int))).val = 7 + 4 * c.val := by
      simp only [toUInt8]; omega
    have a2 : (toUInt8 (8 + 4 * (c.val : Int))).val = 8 + 4 * c.val := by
      simp only [toUInt8]; omega
    have a3 : (toUInt8 (9 + 4 * (c.val : Int))).val = 9 + 4 * c.val := by
      simp only [toUInt8]; omega
    have vlo : (toUInt8 (pwm_value % 256)).val = pwm_value.toNat % 256 := by
      simp only [toUInt8]; omega
    have vhi : (toUInt8 (pwm_value / 256)).val = pwm_value.toNat / 256 := by
      simp only [toUInt8]; omega
    simp only [Fin.ext_iff]
    refine ⟨?_, ?_, ?_, ?_⟩
    · rintro (h | h)
      · rw [if_neg (by omega), if_neg (by omega), if_neg (by omega), if_pos (by omega)]
      · rw [if_neg (by omega), if_neg (by omega), if_pos (by omega)]
    · intro h
      rw [if_neg (by omega), if_pos (by omega)]; exact vlo
    · intro h
      rw [if_pos (by omega)]; exact vhi
    · intro h
      rw [if_neg (by omega), if_neg (by omega), if_neg (by omega), if_neg (by omega)]

theorem setMotorSpeed_validates_witness :
    (setMotorSpeed ((1 : Fin 4).val : Int) 500 busOk = .returned busOk) ∧
    ∃ b, setMotorSpeed ((1 : Fin 4).val : Int) 300 busOk = .returned b ∧
      b.events = busOk.events ++
          [BusEvent.regWrite (toUInt8 (6 + 4 * (1 : Fin 4).val)) 0,
           BusEvent.regWrite (toUInt8 (7 + 4 * (1 : Fin 4).val)) 0,
           BusEvent.regWrite (toUInt8 (8 + 4 * (1 : Fin 4).val)) (toUInt8 (300 % 256)),
           BusEvent.regWrite (toUInt8 (9 + 4 * (1 : Fin 4).val)) (toUInt8 (300 / 256))] :=
  ⟨(setMotorSpeed_validates 1 500 busOk).2.1 (Or.inr (by decide)),
    by
      obtain ⟨b, hb, he, _⟩ :=
        (setMotorSpeed_validates 1 300 busOk).2.2 (by decide) (by decide) (fun _ => rfl)
      exact ⟨b, hb, he⟩⟩

/-- C15: whatever the registers hold, when the bus writes go through the
destructor writes the pulse 210 (`PWM_MIN`) to each of the channels 0..3
exactly once, in this order and with no call rejected by the range check,
and closes the handle only after the last of these writes (a constructed
driver has `fd >= 0`); afterwards registers `8+4c` and `9+4c` of every
channel `c` hold 210 and 0. -/
theorem destroy_safe_state (fd : Int) (bus : Bus) (hok : ∀ k, bus.outcome k = true) :
    ∃ b, destroy fd bus = .returned b ∧
      b.events = bus.events ++
        [BusEvent.regWrite 6 0, BusEvent.regWrite 7 0,
         BusEvent.regWrite 8 210, BusEvent.regWrite 9 0,
         BusEvent.regWrite 10 0, BusEvent.regWrite 11 0,
         BusEvent.regWrite 12 210, BusEvent.regWrite 13 0,
         BusEvent.regWrite 14 0, BusEvent.regWrite 15 0,
         BusEvent.regWrite 16 210, BusEvent.regWrite 17 0,
         BusEvent.regWrite 18 0, BusEvent.regWrite 19 0,
         BusEvent.regWrite 20 210, BusEvent.regWrite 21 0]
        ++ (if fd ≥ 0 then [BusEvent.close fd] else []) ∧
      b.attempts = bus.attempts + 16 ∧
      (∀ c : Fin 4, ∀ r : Fin 256,
        (r.val = 8 + 4 * c.val → b.regs r = 210) ∧ (r.val = 9 + 4 * c.val → b.regs r = 0)) := by
  unfold destroy
  rw [stopAllMotors_ok bus hok]
  simp only [Outcome.andThen]
  have hregs : ∀ c : Fin 4, ∀ r : Fin 256,
      (r.val = 8 + 4 * c.val →
        ((((((((((((((((bus.deliver 6 0).deliver 7 0).deliver 8 210).deliver 9 0).deliver
        10 0).deliver 11 0).deliver 12 210).deliver 13 0).deliver
        14 0).deliver 15 0).deliver 16 210).deliver 17 0).deliver
        18 0).deliver 19 0).deliver 20 210).deliver 21 0).regs r = 210) ∧
      (r.val = 9 + 4 * c.val →
        ((((((((((((((((bus.deliver 6 0).deliver 7 0).deliver 8 210).deliver 9 0).deliver
        10 0).deliver 11 0).deliver 12 210).deliver 13 0).deliver
        14 0).deliver 15 0).deliver 16 210).deliver 17 0).deliver
        18 0).deliver 19 0).deliver 20 210).deliver 21 0).regs r = 0) := by
    intro c r
    have hc := c.isLt
    exact ⟨fun h => (regs_after_stop bus r).1 (by omega),
      fun h => (regs_after_stop bus r).2 (by omega)⟩
  by_cases hfd : fd ≥ 0
  · rw [if_pos hfd, if_pos hfd]
    refine ⟨_, rfl, ?_, ?_, hregs⟩
    · simp [Bus.deliver]
    · simp only [Bus.deliver]
  · rw [if_neg hfd, if_neg hfd]
    refine ⟨_, rfl, ?_, ?_, hregs⟩
    · simp [Bus.deliver]
    · simp only [Bus.deliver]

theorem destroy_safe_state_witness :
    (∀ k, busOk.outcome k = true) ∧
    ∃ b, destroy 3 busOk = .returned b ∧ b.attempts = busOk.attempts + 16 ∧
      b.regs 8 = 210 ∧ b.regs 9 = 0 := by
  obtain ⟨b, h1, _, h3, h4⟩ := destroy_safe_state 3 busOk (fun _ => rfl)
  exact ⟨fun _ => rfl, b, h1, h3, (h4 0 8).1 rfl, (h4 0 9).2 rfl⟩

/-- C16: whatever the outcomes of the underlying 2-byte `write`,
`writeRegister` makes at least one and at most `I2C_RETRY_LIMIT = 3`
attempts; it returns at the first successful attempt when that is one of the
first three, having made no further attempt; and it ends the process, with
the non-zero status 1 and after exactly three attempts, exactly when the
first three attempts all fail. -/
theorem writeRegister_bounded_retry (reg value : Fin 256) (bus : Bus) :
    bus.attempts < (writeRegister reg value bus).bus.attempts ∧
    (writeRegister reg value bus).bus.attempts ≤ bus.attempts + I2C_RETRY_LIMIT ∧
    (∀ j, j < 3 → bus.outcome (bus.attempts + j) = true →
        (∀ i, i < j → bus.outcome (bus.attempts + i) = false) →
        ∃ b, writeRegister reg value bus = .returned b ∧ b.attempts = bus.attempts + j + 1 ∧
          b.events = bus.events ++ [BusEvent.regWrite reg value]) ∧
    ((∀ j, j < 3 → bus.outcome (bus.attempts + j) = false) ↔
        ∃ status b, writeRegister reg value bus = .exited status b) ∧
    (∀ status b, writeRegister reg value bus = .exited status b →
        status = 1 ∧ status ≠ 0 ∧ b.attempts = bus.attempts + 3 ∧ b.events = bus.events) := by
  rw [writeRegister_cases]
  by_cases h0 : bus.outcome bus.attempts = true
  · rw [if_pos h0]
    refine ⟨by simp only [Outcome.bus, Bus.deliver]; omega,
      by simp only [Outcome.bus, Bus.deliver, I2C_RETRY_LIMIT]; omega, ?_, ?_, ?_⟩
    · intro j hj hj1 hmin
      have : j = 0 := by
        by_contra hne
        have := hmin 0 (by omega)
        simp [h0] at this
      subst this
      exact ⟨_, rfl, rfl, rfl⟩
    · constructor
      · intro h
        have := h 0 (by omega)
        simp [h0] at this
      · rintro ⟨status, b, h⟩
        cases h
    · intro status b h
      cases h
  · rw [if_neg h0]
    by_cases h1 : bus.outcome (bus.attempts + 1) = true
    · rw [if_pos h1]
      refine ⟨by simp only [Outcome.bus, Bus.deliver, Bus.fail]; omega,
        by simp only [Outcome.bus, Bus.deliver, Bus.fail, I2C_RETRY_LIMIT]; omega, ?_, ?_, ?_⟩
      · intro j hj hj1 hmin
        have : j = 1 := by
          rcases Nat.lt_trichotomy j 1 with h | h | h
          · have : j = 0 := by omega
            subst this
            simp [h0] at hj1
          · exact h
          · have := hmin 1 h
            simp [h1] at this
        subst this
        exact ⟨_, rfl, rfl, rfl⟩
      · constructor
        · intro h
          have := h 1 (by omega)
          simp [h1] at this
        · rintro ⟨status, b, h⟩
          cases h
      · intro status b h
        cases h
    · rw [if_neg h1]
      by_cases h2 : bus.outcome (bus.attempts + 2) = true
      · rw [if_pos h2]
        refine ⟨by simp only [Outcome.bus, Bus.deliver, Bus.fail]; omega,
          by simp only [Outcome.bus, Bus.deliver, Bus.fail, I2C_RETRY_LIMIT]; omega, ?_, ?_, ?_⟩
        · intro j hj hj1 hmin
          have : j = 2 := by
            rcases Nat.lt_trichotomy j 1 with h | h | h
            · have : j = 0 := by omega
              subst this
              simp [h0] at hj1
            · subst h
              simp [h1] at hj1
            · omega
          subst this
          exact ⟨_, rfl, rfl, rfl⟩
        · constructor
          · intro h
            have := h 2 (by omega)
            simp [h2] at this
          · rintro ⟨status, b, h⟩
            cases h
        · intro status b h
          cases h
      · rw [if_neg h2]
        refine ⟨by simp only [Outcome.bus, Bus.fail]; omega,
          by simp only [Outcome.bus, Bus.fail, I2C_RETRY_LIMIT]; omega, ?_, ?_, ?_⟩
        · intro j hj hj1 hmin
          have hj' : j = 0 ∨ j = 1 ∨ j = 2 := by omega
          rcases hj' with rfl | rfl | rfl
          · simp [h0] at hj1
          · simp [h1] at hj1
          · simp [h2] at hj1
        · constructor
          · intro _
            exact ⟨1, _, rfl⟩
          · intro _ j hj
            have hj' : j = 0 ∨ j = 1 ∨ j = 2 := by omega
            rcases hj' with rfl | rfl | rfl
            · simpa using h0
            · simpa using h1
            · simpa using h2
        · intro status b h
          cases h
          exact ⟨rfl, by decide, rfl, rfl⟩

theorem writeRegister_bounded_retry_witness :
    (∃ b, writeRegister 6 0 busFlaky = .returned b ∧ b.attempts = busFlaky.attempts + 2 + 1 ∧
      b.events = busFlaky.events ++ [BusEvent.regWrite 6 0]) ∧
    (∃ status b, writeRegister 6 0 busDead = .exited status b) :=
  ⟨(writeRegister_bounded_retry 6 0 busFlaky).2.2.1 2 (by decide) (by decide)
      (fun i hi => by
        have : i = 0 ∨ i = 1 := by omega
        rcases this with rfl | rfl <;> rfl),
    ((writeRegister_bounded_retry 6 0 busDead).2.2.2.1).1 (fun _ _ => rfl)⟩

/-- C17 (the code at the failing input): starting from the zero-initialised
`imuData` and an empty queue, after `imuThread` has pushed the corrected
sample `(30, -20, 4)` (raw `gyroZ = 5`, offset 1), the queue holds exactly
that sample, but the copy taken by the next control cycle is still
`(0, 0, 0)`: the pushed sample is not what the cycle computes with. -/
theorem pushed_sample_not_copied :
    (imuThreadStep ⟨30, -20, 5⟩ 1 ⟨⟨0, 0, 0⟩, []⟩).imuDataQueue = [⟨30, -20, 5 - 1⟩] ∧
    copyIMUData (imuThreadStep ⟨30, -20, 5⟩ 1 ⟨⟨0, 0, 0⟩, []⟩) = ⟨0, 0, 0⟩ ∧
    (copyIMUData (imuThreadStep ⟨30, -20, 5⟩ 1 ⟨⟨0, 0, 0⟩, []⟩)).roll_angle ≠ 30 := by
  refine ⟨rfl, rfl, ?_⟩
  show (0 : ℚ) ≠ 30
  norm_num

/-- C18 (as stated, refuted): with full throttle (base pulse 405, so the
cycle is not cut off), neutral aileron and elevator, zero attitude error and
the rudder at 1811, `computeAdjustment(mapControlInput(rudder))` is 10, but
the cycle issues 405 on all four motors, not the mix with a yaw adjustment
of 10 (which would give 395 on motors 2 and 4). -/
theorem rudder_ignored_counterexample :
    computeThrottlePWM (mapThrottle 1811) > PWM_MIN ∧
    computeAdjustment (mapControlInput 1811) = 10 ∧
    (controlLoopCycle rollPID0 pitchPID0 (1/100) ⟨0, 0, 0⟩ 1811 RC_MID RC_MID 1811).calls
      = [⟨0, 405⟩, ⟨1, 405⟩, ⟨2, 405⟩, ⟨3, 405⟩] ∧
    mixCalls (computeThrottlePWM (mapThrottle 1811)) 0 0
        (computeAdjustment (mapControlInput 1811))
      = [⟨0, 405⟩, ⟨1, 395⟩, ⟨2, 405⟩, ⟨3, 395⟩] ∧
    (controlLoopCycle rollPID0 pitchPID0 (1/100) ⟨0, 0, 0⟩ 1811 RC_MID RC_MID 1811).calls
      ≠ mixCalls (computeThrottlePWM (mapThrottle 1811)) 0 0
          (computeAdjustment (mapControlInput 1811)) := by
  have hc := cycle_neutral_calls rollPID0 pitchPID0 (1/100) ⟨0, 0, 0⟩ 1811 1811
    (by norm_num [roll_com]) (by norm_num [pitch_com])
  rw [computeThrottlePWM_full] at hc
  rw [hc, computeThrottlePWM_full, computeAdjustment_full]
  refine ⟨by decide, rfl, rfl, by decide, by decide⟩

/-- C18 (amended): in every control cycle that is not cut off by the
fail-safe, the yaw adjustment fed into the motor mix is 0: the four pulses
are the mix of the base pulse, the aileron total and the elevator total with
yaw adjustment 0; the rudder value does not influence the cycle at all. -/
theorem yaw_adjustment_zero (rollPID pitchPID : PIDController ℚ) (dt : ℚ)
    (localIMUData : IMUData) (throttle_value aileron_value elevator_value rudder_value : Int)
    (h : computeThrottlePWM (mapThrottle throttle_value) > PWM_MIN) :
    (controlLoopCycle rollPID pitchPID dt localIMUData
        throttle_value aileron_value elevator_value rudder_value).calls
      = mixCalls (computeThrottlePWM (mapThrottle throttle_value))
          (computeAdjustment (mapControlInput aileron_value) +
            (if |roll_com - localIMUData.roll_angle| > TOLERANCE_ROLL then
              toInt (rollPID.calculate roll_com localIMUData.roll_angle dt).1 else 0))
          (computeAdjustment (mapControlInput elevator_value) +
            (if |pitch_com - localIMUData.pitch_angle| > TOLERANCE_PITCH then
              toInt (pitchPID.calculate pitch_com localIMUData.pitch_angle dt).1 else 0))
          0 ∧
    ∀ rudder_value' : Int,
      controlLoopCycle rollPID pitchPID dt localIMUData
          throttle_value aileron_value elevator_value rudder_value'
        = controlLoopCycle rollPID pitchPID dt localIMUData
          throttle_value aileron_value elevator_value rudder_value := by
  refine ⟨?_, fun _ => rfl⟩
  rw [cycle_calls, if_neg (not_le.mpr h)]

theorem yaw_adjustment_zero_witness :
    computeThrottlePWM (mapThrottle 1811) > PWM_MIN ∧
    ∀ rudder_value' : Int,
      controlLoopCycle rollPID0 pitchPID0 (1/100) ⟨0, 0, 0⟩ 1811 991 991 rudder_value'
        = controlLoopCycle rollPID0 pitchPID0 (1/100) ⟨0, 0, 0⟩ 1811 991 991 1811 :=
  ⟨by rw [computeThrottlePWM_full]; decide,
    (yaw_adjustment_zero rollPID0 pitchPID0 (1/100) ⟨0, 0, 0⟩ 1811 991 991 1811
      (by rw [computeThrottlePWM_full]; decide)).2⟩

/-- C19: whatever the four channel values, the inertial sample, the
controllers and `dt`, every call that one cycle issues is for a motor 0..3
with a pulse in 210..405, so the range check of `setMotorSpeed` rejects none
of them: on a bus whose writes go through each call attempts bus writes. -/
theorem commanded_pulses_in_range (rollPID pitchPID : PIDController ℚ) (dt : ℚ)
    (localIMUData : IMUData) (throttle_value aileron_value elevator_value rudder_value : Int) :
    ∀ c ∈ (controlLoopCycle rollPID pitchPID dt localIMUData
        throttle_value aileron_value elevator_value rudder_value).calls,
      (0 ≤ c.channel ∧ c.channel ≤ 3) ∧
      (210 ≤ c.pwm_value ∧ c.pwm_value ≤ 405) ∧
      ¬ (c.pwm_value < PWM_MIN ∨ c.pwm_value > PWM_MAX) ∧
      ∀ bus : Bus, setMotorSpeed c.channel c.pwm_value bus
        = setPWM c.channel 0 c.pwm_value bus := by
  intro c hc
  have key : (0 ≤ c.channel ∧ c.channel ≤ 3) ∧
      (PWM_MIN ≤ c.pwm_value ∧ c.pwm_value ≤ PWM_MAX) := by
    rw [cycle_calls] at hc
    by_cases hf : computeThrottlePWM (mapThrottle throttle_value) ≤ PWM_MIN
    · rw [if_pos hf] at hc
      simp only [List.mem_cons, List.mem_singleton, List.not_mem_nil, or_false] at hc
      rcases hc with rfl | rfl | rfl | rfl <;>
        exact ⟨⟨by norm_num, by norm_num⟩, ⟨le_refl _, by decide⟩⟩
    · rw [if_neg hf] at hc
      simp only [mixCalls, List.mem_cons, List.mem_singleton, List.not_mem_nil, or_false] at hc
      rcases hc with rfl | rfl | rfl | rfl <;>
        exact ⟨⟨by norm_num, by norm_num⟩, clamp_range _⟩
  obtain ⟨hch, h1, h2⟩ := key
  simp only [PWM_MIN, PWM_MAX] at h1 h2
  have hno : ¬ (c.pwm_value < PWM_MIN ∨ c.pwm_value > PWM_MAX) := by
    intro h
    simp only [PWM_MIN, PWM_MAX] at h
    omega
  refine ⟨hch, ⟨h1, h2⟩, hno, fun bus => ?_⟩
  simp only [setMotorSpeed, if_neg hno]

theorem commanded_pulses_in_range_witness :
    (⟨1, 405⟩ : MotorCall) ∈
      (controlLoopCycle rollPID0 pitchPID0 (1/100) ⟨0, 0, 0⟩ 1811 RC_MID RC_MID 1811).calls ∧
    (210 ≤ (⟨1, 405⟩ : MotorCall).pwm_value ∧ (⟨1, 405⟩ : MotorCall).pwm_value ≤ 405) := by
  have hc := cycle_neutral_calls rollPID0 pitchPID0 (1/100) ⟨0, 0, 0⟩ 1811 1811
    (by norm_num [roll_com]) (by norm_num [pitch_com])
  rw [computeThrottlePWM_full] at hc
  have hm : (⟨1, 405⟩ : MotorCall) ∈
      (controlLoopCycle rollPID0 pitchPID0 (1/100) ⟨0, 0, 0⟩ 1811 RC_MID RC_MID 1811).calls := by
    rw [hc]; decide
  exact ⟨hm, (commanded_pulses_in_range rollPID0 pitchPID0 (1/100) ⟨0, 0, 0⟩ 1811 RC_MID RC_MID
    1811 _ hm).2.1⟩

/-- C20: for every integer `v`, `mapControlInput(v)` lies in `[-1, 1]`; it is
0 at `v = 991` and for `v < 172` or `v > 1811`; it is `(v - 991)/819` for
`172 ≤ v < 991` and `(v - 991)/820` for `991 < v ≤ 1811`; it is exactly -1 at
172 and +1 at 1811. -/
theorem mapControlInput_normalised (v : Int) :
    (-1 ≤ mapControlInput v ∧ mapControlInput v ≤ 1) ∧
    mapControlInput 991 = 0 ∧
    (v < 172 ∨ v > 1811 → mapControlInput v = 0) ∧
    (172 ≤ v ∧ v < 991 → mapControlInput v = ((v : ℚ) - 991) / 819) ∧
    (991 < v ∧ v ≤ 1811 → mapControlInput v = ((v : ℚ) - 991) / 820) ∧
    mapControlInput 172 = -1 ∧ mapControlInput 1811 = 1 := by
  have hout : v < 172 ∨ v > 1811 → mapControlInput v = 0 := by
    intro h
    unfold mapControlInput
    rw [if_pos (by simpa only [RC_MIN, RC_MAX] using h)]
  have hlow : 172 ≤ v ∧ v < 991 → mapControlInput v = ((v : ℚ) - 991) / 819 := by
    rintro ⟨h1, h2⟩
    unfold mapControlInput
    rw [if_neg (by simp only [RC_MIN, RC_MAX]; omega), if_pos (by simpa only [RC_MID] using h2)]
    simp only [RC_MID, RC_MIN]
    push_cast
    norm_num
  have hhigh : 991 < v ∧ v ≤ 1811 → mapControlInput v = ((v : ℚ) - 991) / 820 := by
    rintro ⟨h1, h2⟩
    unfold mapControlInput
    rw [if_neg (by simp only [RC_MIN, RC_MAX]; omega), if_neg (by simp only [RC_MID]; omega),
      if_pos (by simpa only [RC_MID] using h1)]
    simp only [RC_MID, RC_MAX]
    push_cast
    norm_num
  refine ⟨?_, mapControlInput_mid, hout, hlow, hhigh, ?_, ?_⟩
  · by_cases ho : v < 172 ∨ v > 1811
    · rw [hout ho]; norm_num
    · by_cases hl : v < 991
      · rw [hlow ⟨by omega, hl⟩]
        have h1 : (172 : ℚ) ≤ (v : ℚ) := by exact_mod_cast (by omega : (172 : Int) ≤ v)
        have h2 : (v : ℚ) < 991 := by exact_mod_cast hl
        constructor
        · rw [le_div_iff₀ (by norm_num)]; linarith
        · rw [div_le_iff₀ (by norm_num)]; linarith
      · by_cases hm : v = 991
        · have h991 : mapControlInput 991 = 0 := mapControlInput_mid
          rw [hm, h991]; norm_num
        · rw [hhigh ⟨by omega, by omega⟩]
          have h1 : (991 : ℚ) < (v : ℚ) := by exact_mod_cast (by omega : (991 : Int) < v)
          have h2 : (v : ℚ) ≤ 1811 := by exact_mod_cast (by omega : v ≤ (1811 : Int))
          constructor
          · rw [le_div_iff₀ (by norm_num)]; linarith
          · rw [div_le_iff₀ (by norm_num)]; linarith
  · unfold mapControlInput
    rw [if_neg (by decide), if_pos (by decide)]
    norm_num [RC_MID, RC_MIN]
  · unfold mapControlInput
    rw [if_neg (by decide), if_neg (by decide), if_pos (by decide)]
    norm_num [RC_MID, RC_MAX]

end FlightControl

/-! ## Lemmas about the base pulse and the channel layout -/

namespace FlightControl

theorem computeThrottlePWM_closed (v : Int) :
    computeThrottlePWM (mapThrottle v)
      = if v ≤ 172 then 210 else if v ≥ 1811 then 405 else 210 + 195 * (v - 172) / 1639 := by
  by_cases h1 : v ≤ 172
  · have ht : mapThrottle v = 0 := by
      unfold mapThrottle
      rw [if_pos (by simpa only [RC_MIN] using h1)]
    rw [if_pos h1, ht]
    unfold computeThrottlePWM
    rw [zero_mul, add_zero]
    exact toInt_intCast PWM_MIN
  · rw [if_neg h1]
    by_cases h2 : v ≥ 1811
    · have ht : mapThrottle v = 1 := by
        unfold mapThrottle
        rw [if_neg (by simpa only [RC_MIN] using h1), if_pos (by simpa only [RC_MAX] using h2)]
      rw [if_pos h2, ht]
      unfold computeThrottlePWM
      have e : ((PWM_MIN : Int) : ℚ) + 1 * ((PWM_MAX - PWM_MIN : Int) : ℚ)
          = ((405 : Int) : ℚ) := by
        norm_num [PWM_MIN, PWM_MAX]
      rw [e]
      exact toInt_intCast 405
    · rw [if_neg h2]
      have ht : mapThrottle v = ((v - 172 : Int) : ℚ) / ((1639 : Int) : ℚ) := by
        unfold mapThrottle
        rw [if_neg (by simpa only [RC_MIN] using h1), if_neg (by simpa only [RC_MAX] using h2)]
        rfl
      rw [ht]
      unfold computeThrottlePWM
      have e : ((PWM_MIN : Int) : ℚ) + ((v - 172 : Int) : ℚ) / ((1639 : Int) : ℚ)
            * ((PWM_MAX - PWM_MIN : Int) : ℚ)
          = ((210 * 1639 + 195 * (v - 172) : Int) : ℚ) / ((1639 : ℕ) : ℚ) := by
        simp only [PWM_MIN, PWM_MAX]
        push_cast
        field_simp
        ring
      have hnn : (0 : ℚ) ≤ ((210 * 1639 + 195 * (v - 172) : Int) : ℚ) / ((1639 : ℕ) : ℚ) := by
        apply div_nonneg
        · exact_mod_cast (by omega : (0 : Int) ≤ 210 * 1639 + 195 * (v - 172))
        · norm_num
      rw [e]
      unfold toInt
      rw [if_pos hnn, Rat.floor_intCast_div_natCast]
      push_cast
      omega

theorem floor_interpolation (v : Int) :
    ⌊(195 * ((v : ℚ) - 172)) / 1639⌋ = 195 * (v - 172) / 1639 := by
  have e : (195 * ((v : ℚ) - 172)) / 1639
      = ((195 * (v - 172) : Int) : ℚ) / ((1639 : ℕ) : ℚ) := by
    push_cast
    ring
  rw [e, Rat.floor_intCast_div_natCast]
  push_cast
  rfl

theorem clamp_eq_min_iff (y : Int) : clamp y PWM_MIN PWM_MAX = 210 ↔ y ≤ 210 := by
  unfold clamp
  simp only [PWM_MIN, PWM_MAX]
  split_ifs <;> omega

end FlightControl

namespace RCInput

theorem frameChannels_congr (f g : List Byte)
    (h : ∀ k, 1 ≤ k → k ≤ 32 → g.getD k 0 = f.getD k 0) :
    frameChannels g = frameChannels f := by
  funext c
  have hc := c.isLt
  simp only [frameChannels]
  rw [h (1 + c.val * 2) (by omega) (by omega), h (2 + c.val * 2) (by omega) (by omega)]

end RCInput

/-! ## The base pulse, the fail-safe threshold and the channel layout -/

namespace FlightControl

/-- C21: over the rationals, for every integer `v`, `mapThrottle(v)` lies in
`[0, 1]` and the base pulse `computeThrottlePWM(mapThrottle(v))` lies in
210..405; it is 210 for `v ≤ 172`, 405 for `v ≥ 1811`, and
`210 + floor(195*(v - 172)/1639)` in between; and it never decreases when
`v` grows. -/
theorem throttle_pulse_interpolation (v : Int) :
    (0 ≤ mapThrottle v ∧ mapThrottle v ≤ 1) ∧
    (210 ≤ computeThrottlePWM (mapThrottle v) ∧ computeThrottlePWM (mapThrottle v) ≤ 405) ∧
    (v ≤ 172 → computeThrottlePWM (mapThrottle v) = 210) ∧
    (v ≥ 1811 → computeThrottlePWM (mapThrottle v) = 405) ∧
    (172 ≤ v ∧ v ≤ 1811 →
      computeThrottlePWM (mapThrottle v) = 210 + ⌊(195 * ((v : ℚ) - 172)) / 1639⌋) ∧
    ∀ w : Int, v ≤ w →
      computeThrottlePWM (mapThrottle v) ≤ computeThrottlePWM (mapThrottle w) := by
  refine ⟨mapThrottle_range v, ?_, ?_, ?_, ?_, ?_⟩
  · rw [computeThrottlePWM_closed]
    split_ifs <;> omega
  · intro h
    rw [computeThrottlePWM_closed, if_pos h]
  · intro h
    rw [computeThrottlePWM_closed, if_neg (by omega), if_pos h]
  · rintro ⟨h1, h2⟩
    rw [computeThrottlePWM_closed, floor_interpolation]
    split_ifs <;> omega
  · intro w hw
    rw [computeThrottlePWM_closed v, computeThrottlePWM_closed w]
    split_ifs <;> omega

/-- C22: because the base pulse is truncated to an integer, the fail-safe
condition `throttle_PWM <= PWM_MIN` holds exactly when the throttle channel
value is at most 180; for every value up to 180 (173..180 included) the
cycle issues `setMotorSpeed(0..3, 210)` and nothing else, and for every
value from 181 up it issues the mixed pulses, which are never all 210. -/
theorem failsafe_threshold (rollPID pitchPID : PIDController ℚ) (dt : ℚ)
    (localIMUData : IMUData) (throttle_value aileron_value elevator_value rudder_value : Int) :
    (computeThrottlePWM (mapThrottle throttle_value) ≤ PWM_MIN ↔ throttle_value ≤ 180) ∧
    (throttle_value ≤ 180 →
      (controlLoopCycle rollPID pitchPID dt localIMUData
          throttle_value aileron_value elevator_value rudder_value).calls
        = [⟨0, 210⟩, ⟨1, 210⟩, ⟨2, 210⟩, ⟨3, 210⟩]) ∧
    (181 ≤ throttle_value →
      (controlLoopCycle rollPID pitchPID dt localIMUData
          throttle_value aileron_value elevator_value rudder_value).calls
        = mixCalls (computeThrottlePWM (mapThrottle throttle_value))
            (computeAdjustment (mapControlInput aileron_value) +
              (if |roll_com - localIMUData.roll_angle| > TOLERANCE_ROLL then
                toInt (rollPID.calculate roll_com localIMUData.roll_angle dt).1 else 0))
            (computeAdjustment (mapControlInput elevator_value) +
              (if |pitch_com - localIMUData.pitch_angle| > TOLERANCE_PITCH then
                toInt (pitchPID.calculate pitch_com localIMUData.pitch_angle dt).1 else 0))
            0 ∧
      (controlLoopCycle rollPID pitchPID dt localIMUData
          throttle_value aileron_value elevator_value rudder_value).calls
        ≠ [⟨0, 210⟩, ⟨1, 210⟩, ⟨2, 210⟩, ⟨3, 210⟩]) := by
  have hiff : computeThrottlePWM (mapThrottle throttle_value) ≤ PWM_MIN ↔
      throttle_value ≤ 180 := by
    rw [computeThrottlePWM_closed]
    simp only [PWM_MIN]
    split_ifs <;> omega
  refine ⟨hiff, ?_, ?_⟩
  · intro h
    rw [cycle_calls, if_pos (hiff.mpr h)]
    rfl
  · intro h
    have hb : ¬ computeThrottlePWM (mapThrottle throttle_value) ≤ PWM_MIN := by
      rw [hiff]; omega
    rw [cycle_calls, if_neg hb]
    refine ⟨rfl, ?_⟩
    intro heq
    simp only [mixCalls, List.cons.injEq, MotorCall.mk.injEq, true_and, and_true] at heq
    obtain ⟨h1, h2, _, _⟩ := heq
    rw [clamp_eq_min_iff] at h1 h2
    simp only [PWM_MIN] at hb
    omega

theorem failsafe_threshold_witness :
    (controlLoopCycle rollPID0 pitchPID0 (1/100) ⟨30, -20, 0⟩ 180 1500 300 991).calls
        = [⟨0, 210⟩, ⟨1, 210⟩, ⟨2, 210⟩, ⟨3, 210⟩] ∧
    (controlLoopCycle rollPID0 pitchPID0 (1/100) ⟨30, -20, 0⟩ 181 1500 300 991).calls
        ≠ [⟨0, 210⟩, ⟨1, 210⟩, ⟨2, 210⟩, ⟨3, 210⟩] :=
  ⟨(failsafe_threshold rollPID0 pitchPID0 (1/100) ⟨30, -20, 0⟩ 180 1500 300 991).2.1
      (by decide),
    ((failsafe_threshold rollPID0 pitchPID0 (1/100) ⟨30, -20, 0⟩ 181 1500 300 991).2.2
      (by decide)).2⟩

end FlightControl

namespace RCInput

/-- C23: for every accepted 35-byte frame (first byte `0x0F`, last byte the
XOR of bytes 1..33) and every channel `n` in 1..16, the value stored and
returned for channel `n` is `256*frame[2n-1] + frame[2n]`, a 16-bit
big-endian byte pair; the sixteen channels occupy bytes 1..32 and every
stored value lies in 0..65535; byte 33 enters the checksum (changing it
alone makes the frame invalid) but no channel value (any accepted frame with
the same bytes 1..32 gives the same channels). -/
theorem channel_layout (n : Nat) (f g : List Byte) (ch : Fin 16 → Word) (b : Byte)
    (h1 : 1 ≤ n) (h2 : n ≤ 16) (hv : ValidFrame f) :
    ∃ r, readRCChannel (n : Int) f ⟨ch, []⟩ = some r ∧
      r.value = ((256 * (f.getD (2 * n - 1) 0).val + (f.getD (2 * n) 0).val : Nat) : Int) ∧
      (∀ c : Fin 16,
        (r.state.channels c).val
          = 256 * (f.getD (2 * (c.val + 1) - 1) 0).val + (f.getD (2 * (c.val + 1)) 0).val ∧
        (r.state.channels c).val ≤ 65535 ∧
        1 ≤ 2 * (c.val + 1) - 1 ∧ 2 * (c.val + 1) ≤ 32) ∧
      (b ≠ f.getD 33 0 → ¬ ValidFrame (f.set 33 b)) ∧
      (ValidFrame g → (∀ k, 1 ≤ k → k ≤ 32 → g.getD k 0 = f.getD k 0) →
        ∃ r', readRCChannel (n : Int) g ⟨ch, []⟩ = some r' ∧
          r'.state.channels = r.state.channels ∧ r'.value = r.value) := by
  have hn : n - 1 < 16 := by omega
  have hf := readRCChannel_frame ⟨n - 1, hn⟩ f hv ch
  have hi : (((⟨n - 1, hn⟩ : Fin 16).val : Int) + 1) = (n : Int) := by
    simp only []
    omega
  rw [hi] at hf
  have e1 : 1 + 2 * (n - 1) = 2 * n - 1 := by omega
  have e2 : 2 + 2 * (n - 1) = 2 * n := by omega
  refine ⟨_, hf, ?_, ?_, ?_, ?_⟩
  · simp only [frameChannels_val, pairValue]
    rw [e1, e2]
  · intro c
    have hc := c.isLt
    have hlt := (frameChannels f c).isLt
    refine ⟨?_, by omega, by omega, by omega⟩
    have i1 : 1 + 2 * c.val = 2 * (c.val + 1) - 1 := by omega
    have i2 : 2 + 2 * c.val = 2 * (c.val + 1) := by omega
    simp only [frameChannels_val, pairValue]
    rw [i1, i2]
  · intro hb
    exact set_invalid f hv 33 (by omega) (by omega) b hb
  · intro hg hsame
    have hgf := readRCChannel_frame ⟨n - 1, hn⟩ g hg ch
    rw [hi, frameChannels_congr f g hsame] at hgf
    exact ⟨_, hgf, rfl, rfl⟩

theorem channel_layout_witness :
    ValidFrame frameA ∧ ValidFrame ((frameA.set 33 0x21).set 34 0x01) ∧
    ∃ r, readRCChannel ((1 : Nat) : Int) frameA ⟨zeroChannels, []⟩ = some r ∧
      r.value = ((256 * (frameA.getD (2 * 1 - 1) 0).val
        + (frameA.getD (2 * 1) 0).val : Nat) : Int) ∧
      ¬ ValidFrame (frameA.set 33 0x21) ∧
      ∃ r', readRCChannel ((1 : Nat) : Int) ((frameA.set 33 0x21).set 34 0x01)
          ⟨zeroChannels, []⟩ = some r' ∧
        r'.state.channels = r.state.channels ∧ r'.value = r.value := by
  obtain ⟨r, hr, hval, _, hsum, hsame⟩ :=
    channel_layout 1 frameA ((frameA.set 33 0x21).set 34 0x01) zeroChannels 0x21
      (by decide) (by decide) (by decide)
  refine ⟨by decide, by decide, r, hr, hval, hsum (by decide), hsame (by decide) ?_⟩
  intro k hk1 hk2
  interval_cases k <;> rfl

end RCInput
